import Mathlib

/-!
Verification development for the EDM DNS telemetry minimiser.

The Go source is shallowly embedded: byte slices become `List Nat`,
`netip.Addr` becomes `GoAddr`, strings that are parsed become `List Char`,
machine integers become `Int`/`Nat` (overflow is irrelevant on the paths
modelled here), fallible code returns `Option`/`Except`, and panics are
modelled by an outer `Option` (`none` = panic).  External collaborator
libraries (cryptopan, the DAWG finder, murmur3, the HLL sketch, the
filesystem and HTTP stack) are modelled by parameters or by their
documented contracts, as noted on each definition.
-/

/-! ## netip.Addr model

`netip.AddrFromSlice` accepts 4-byte and 16-byte slices; a 16-byte slice
always produces an address of the IPv6 internal family, even when the
bytes are in the v4-mapped range `::ffff:0:0/96`. -/

/-- Model of `netip.Addr`: a parsed IP address is either of the IPv4
family (4 bytes) or of the IPv6 family (16 bytes). -/
inductive GoAddr where
  | v4 (bytes : List Nat)
  | v6 (bytes : List Nat)
  deriving DecidableEq, Repr

/-- Model of `netip.AddrFromSlice`: ok iff the slice is 4 or 16 bytes. -/
def addrFromSlice (b : List Nat) : Option GoAddr :=
  if b.length = 4 then some (GoAddr.v4 b)
  else if b.length = 16 then some (GoAddr.v6 b)
  else none

/-- The 12-byte lead-in of a v4-mapped IPv6 address `::ffff:a.b.c.d`. -/
def v4MappedLeadIn : List Nat := [0, 0, 0, 0, 0, 0, 0, 0, 0, 0, 255, 255]

/-- A 16-byte slice is in the v4-mapped range `::ffff:0:0/96`. -/
def isV4Mapped16 (b : List Nat) : Bool := b.take 12 = v4MappedLeadIn

/-- Model of `netip.Addr.Unmap`: a v4-mapped IPv6-family address becomes
the IPv4 address of its last 4 bytes; everything else is unchanged. -/
def GoAddr.unmap : GoAddr → GoAddr
  | GoAddr.v4 b => GoAddr.v4 b
  | GoAddr.v6 b => if isV4Mapped16 b then GoAddr.v4 (b.drop 12) else GoAddr.v6 b

/-- Model of `netip.Addr.AsSlice`: 4 bytes for the IPv4 family, 16 for
the IPv6 family. -/
def GoAddr.asSlice : GoAddr → List Nat
  | GoAddr.v4 b => b
  | GoAddr.v6 b => b

/-- Model of `netip.Addr.Is4`: true exactly for the IPv4 family. -/
def GoAddr.is4 : GoAddr → Bool
  | GoAddr.v4 _ => true
  | GoAddr.v6 _ => false

/-! ## pseudonymiseIP

From `pseudonymiseIP` in the runner package.  The cryptopan primitive
(`edm.cryptopan.Anonymize`) is an external collaborator and is passed in
as the function `anonymize` on raw byte slices; the bounded LRU cache
(`edm.cryptopanCache`) is passed in as a partial map (`none` = cache
disabled).  The returned `Bool` is true exactly when the Go function
returns a non-nil error. -/
def pseudonymiseIP (anonymize : List Nat → List Nat)
    (cache : Option (GoAddr → Option GoAddr)) (ipBytes : List Nat) :
    List Nat × Bool :=
  match addrFromSlice ipBytes with
  | none => (List.replicate ipBytes.length 0, true)
  | some addr =>
    let cached : Option GoAddr :=
      match cache with
      | some c => c addr
      | none => none
    match cached with
    | some pseudonymisedAddr => (pseudonymisedAddr.asSlice, false)
    | none =>
      match addrFromSlice (anonymize addr.asSlice) with
      | none => (List.replicate ipBytes.length 0, true)
      | some pa => ((GoAddr.unmap pa).asSlice, false)

/-- Contract of the cryptopan collaborator, from its documented behaviour:
it is family-preserving, and IPv4 results are returned in the 16-byte
v4-mapped encoding produced by `net.IPv4` (4-byte inputs and inputs in
the v4-mapped range are treated as IPv4). -/
def AnonymizeContract (anonymize : List Nat → List Nat) : Prop :=
  (∀ b : List Nat, b.length = 4 →
      (anonymize b).length = 16 ∧ isV4Mapped16 (anonymize b) = true) ∧
  (∀ b : List Nat, b.length = 16 → isV4Mapped16 b = true →
      (anonymize b).length = 16 ∧ isV4Mapped16 (anonymize b) = true) ∧
  (∀ b : List Nat, b.length = 16 → isV4Mapped16 b = false →
      (anonymize b).length = 16 ∧ isV4Mapped16 (anonymize b) = false)

/-- Invariant of the pseudonymisation cache: every stored value is the
unmapped parse of the anonymised key, exactly what the cache-miss path
inserts. -/
def CacheContract (anonymize : List Nat → List Nat)
    (cache : Option (GoAddr → Option GoAddr)) : Prop :=
  ∀ c, cache = some c → ∀ a r, c a = some r →
    ∃ pa, addrFromSlice (anonymize a.asSlice) = some pa ∧ r = GoAddr.unmap pa

/-- The slice of the unmapped parse of a 16-byte v4-mapped buffer has 4
bytes. -/
theorem unmap_v6_mapped_asSlice_length {b : List Nat} (h16 : b.length = 16)
    (hm : isV4Mapped16 b = true) :
    ((GoAddr.unmap (GoAddr.v6 b)).asSlice).length = 4 := by
  simp [GoAddr.unmap, hm, GoAddr.asSlice, h16]

/-- The slice of the unmapped parse of a 16-byte non-mapped buffer has 16
bytes. -/
theorem unmap_v6_unmapped_asSlice_length {b : List Nat} (h16 : b.length = 16)
    (hm : isV4Mapped16 b = false) :
    ((GoAddr.unmap (GoAddr.v6 b)).asSlice).length = 16 := by
  simp [GoAddr.unmap, hm, GoAddr.asSlice, h16]

/-- The cache-miss arm of `pseudonymiseIP`, shared by the three parsed
cases: what the anonymised, parsed, unmapped result looks like. -/
theorem pseudonymiseIP_miss_result (anonymize : List Nat → List Nat)
    (ipBytes : List Nat) (addr : GoAddr)
    (haddr : addrFromSlice ipBytes = some addr)
    (pa : GoAddr) (hpa : addrFromSlice (anonymize addr.asSlice) = some pa) :
    pseudonymiseIP anonymize none ipBytes = ((GoAddr.unmap pa).asSlice, false) := by
  simp only [pseudonymiseIP, haddr, hpa]

/-- With a cache obeying `CacheContract`, a cache hit returns exactly the
value the miss path would have produced, so every parsed input yields the
unmapped parse of its anonymisation. -/
theorem pseudonymiseIP_parsed (anonymize : List Nat → List Nat)
    (cache : Option (GoAddr → Option GoAddr)) (hc : CacheContract anonymize cache)
    (ipBytes : List Nat) (addr : GoAddr)
    (haddr : addrFromSlice ipBytes = some addr)
    (pa : GoAddr) (hpa : addrFromSlice (anonymize addr.asSlice) = some pa) :
    pseudonymiseIP anonymize cache ipBytes = ((GoAddr.unmap pa).asSlice, false) := by
  match cache with
  | none => simp only [pseudonymiseIP, haddr, hpa]
  | some c =>
    match hcc : c addr with
    | none => simp only [pseudonymiseIP, haddr, hcc, hpa]
    | some r =>
      obtain ⟨pa2, hpa2, hr⟩ := hc c rfl addr r hcc
      rw [hpa] at hpa2
      obtain rfl : pa = pa2 := by exact Option.some.inj hpa2
      simp only [pseudonymiseIP, haddr, hcc, hr]

/-- C3: `pseudonymiseIP` preserves address family and zero-fills on
error: a 4-byte input yields a 4-byte (IPv4) output without error; a
16-byte v4-mapped input yields the unmapped 4-byte IPv4 output without
error; a 16-byte non-mapped input yields a 16-byte IPv6 output without
error; any other length (including zero) yields a zero-filled buffer of
the input length together with an error. -/
theorem C3_pseudonymiseIP_family_preservation
    (anonymize : List Nat → List Nat) (cache : Option (GoAddr → Option GoAddr))
    (ha : AnonymizeContract anonymize) (hc : CacheContract anonymize cache)
    (ipBytes : List Nat) :
    (ipBytes.length = 4 →
      (pseudonymiseIP anonymize cache ipBytes).1.length = 4 ∧
      (pseudonymiseIP anonymize cache ipBytes).2 = false) ∧
    (ipBytes.length = 16 → isV4Mapped16 ipBytes = true →
      (pseudonymiseIP anonymize cache ipBytes).1.length = 4 ∧
      (pseudonymiseIP anonymize cache ipBytes).2 = false) ∧
    (ipBytes.length = 16 → isV4Mapped16 ipBytes = false →
      (pseudonymiseIP anonymize cache ipBytes).1.length = 16 ∧
      (pseudonymiseIP anonymize cache ipBytes).2 = false) ∧
    (ipBytes.length ≠ 4 → ipBytes.length ≠ 16 →
      pseudonymiseIP anonymize cache ipBytes =
        (List.replicate ipBytes.length 0, true)) := by
  refine ⟨?_, ?_, ?_, ?_⟩
  · intro h4
    have haddr : addrFromSlice ipBytes = some (GoAddr.v4 ipBytes) := by
      simp [addrFromSlice, h4]
    obtain ⟨hlen, hmap⟩ := ha.1 ipBytes h4
    have hpa : addrFromSlice (anonymize (GoAddr.v4 ipBytes).asSlice) =
        some (GoAddr.v6 (anonymize ipBytes)) := by
      simp [addrFromSlice, GoAddr.asSlice, hlen]
    rw [pseudonymiseIP_parsed anonymize cache hc ipBytes _ haddr _ hpa]
    exact ⟨unmap_v6_mapped_asSlice_length hlen hmap, rfl⟩
  · intro h16 hm
    have haddr : addrFromSlice ipBytes = some (GoAddr.v6 ipBytes) := by
      simp [addrFromSlice, h16]
    obtain ⟨hlen, hmap⟩ := ha.2.1 ipBytes h16 hm
    have hpa : addrFromSlice (anonymize (GoAddr.v6 ipBytes).asSlice) =
        some (GoAddr.v6 (anonymize ipBytes)) := by
      simp [addrFromSlice, GoAddr.asSlice, hlen]
    rw [pseudonymiseIP_parsed anonymize cache hc ipBytes _ haddr _ hpa]
    exact ⟨unmap_v6_mapped_asSlice_length hlen hmap, rfl⟩
  · intro h16 hm
    have haddr : addrFromSlice ipBytes = some (GoAddr.v6 ipBytes) := by
      simp [addrFromSlice, h16]
    obtain ⟨hlen, hmap⟩ := ha.2.2 ipBytes h16 hm
    have hpa : addrFromSlice (anonymize (GoAddr.v6 ipBytes).asSlice) =
        some (GoAddr.v6 (anonymize ipBytes)) := by
      simp [addrFromSlice, GoAddr.asSlice, hlen]
    rw [pseudonymiseIP_parsed anonymize cache hc ipBytes _ haddr _ hpa]
    exact ⟨unmap_v6_unmapped_asSlice_length hlen hmap, rfl⟩
  · intro h4 h16
    have haddr : addrFromSlice ipBytes = none := by
      simp [addrFromSlice, h4, h16]
    simp only [pseudonymiseIP, haddr]

/-- Taking the first 12 bytes of a v4-mapped buffer recovers the lead-in. -/
theorem take12_leadIn_append (b : List Nat) :
    (v4MappedLeadIn ++ b).take 12 = v4MappedLeadIn :=
  List.take_left' rfl

/-- A concrete instantiation of the cryptopan contract: 4-byte inputs are
wrapped into the v4-mapped encoding, 16-byte inputs are returned as-is. -/
def witnessAnonymize (b : List Nat) : List Nat :=
  if b.length = 4 then v4MappedLeadIn ++ b else b

theorem witnessAnonymize_contract : AnonymizeContract witnessAnonymize := by
  refine ⟨?_, ?_, ?_⟩
  · intro b hb
    constructor
    · simp [witnessAnonymize, hb, v4MappedLeadIn]
    · simp [witnessAnonymize, hb, isV4Mapped16, take12_leadIn_append]
  · intro b hb hm
    constructor
    · simp [witnessAnonymize, hb]
    · simp only [witnessAnonymize, hb]
      simpa using hm
  · intro b hb hm
    constructor
    · simp [witnessAnonymize, hb]
    · simp only [witnessAnonymize, hb]
      simpa using hm

theorem C3_pseudonymiseIP_family_preservation_witness :
    AnonymizeContract witnessAnonymize ∧
    CacheContract witnessAnonymize none ∧
    (pseudonymiseIP witnessAnonymize none [10, 0, 0, 1]).1.length = 4 ∧
    (pseudonymiseIP witnessAnonymize none
      (v4MappedLeadIn ++ [192, 0, 2, 33])).1.length = 4 ∧
    (pseudonymiseIP witnessAnonymize none (List.replicate 16 32)).1.length = 16 ∧
    pseudonymiseIP witnessAnonymize none [] = ([], true) := by
  have hc : CacheContract witnessAnonymize none := by
    intro c h
    exact absurd h (by simp)
  refine ⟨witnessAnonymize_contract, hc, ?_, ?_, ?_, ?_⟩
  · exact ((C3_pseudonymiseIP_family_preservation witnessAnonymize none
      witnessAnonymize_contract hc [10, 0, 0, 1]).1 (by decide)).1
  · exact ((C3_pseudonymiseIP_family_preservation witnessAnonymize none
      witnessAnonymize_contract hc (v4MappedLeadIn ++ [192, 0, 2, 33])).2.1
      (by decide) (by decide)).1
  · exact ((C3_pseudonymiseIP_family_preservation witnessAnonymize none
      witnessAnonymize_contract hc (List.replicate 16 32)).2.2.1
      (by decide) (by decide)).1
  · simpa using (C3_pseudonymiseIP_family_preservation witnessAnonymize none
      witnessAnonymize_contract hc []).2.2.2 (by decide) (by decide)

/-! ## reverseLabelsBounded

From `reverseLabelsBounded` in the runner package.  Go's nil slice is
`none`; a descending index loop `for i := hi; i > lo; i--` is embedded as
the index list `downTo hi lo`; `labels[i]` is `ls.getD i ""` (all uses
are in range). -/

/-- The descending index list `[hi, hi-1, ..., lo+1]` visited by a Go
loop `for i := hi; i > lo; i--`. -/
def downTo (hi lo : Nat) : List Nat := (List.range' (lo + 1) (hi - lo)).reverse

/-- From `reverseLabelsBounded`: reverse the labels, keeping at most
`maxLen` slots; with more labels than `maxLen`, the leading remainder is
dot-joined into the final slot. -/
def reverseLabelsBounded (labels : Option (List String)) (maxLen : Nat) :
    Option (List String) :=
  match labels with
  | none => none
  | some ls =>
    let remainderElems := if ls.length > maxLen then ls.length - maxLen else 0
    let boundedReverseLabels :=
      (downTo (ls.length - 1) remainderElems).map (fun i => ls.getD i "")
    if ls.length ≤ maxLen then
      some (boundedReverseLabels ++ [ls.getD 0 ""])
    else if remainderElems > 0 then
      some (boundedReverseLabels ++
        [String.intercalate "."
          ((downTo remainderElems 0 ++ [0]).map (fun i => ls.getD i ""))])
    else
      some boundedReverseLabels

/-- Reading consecutive indices `s, s+1, ...` out of a list is a
drop-then-take. -/
theorem map_getD_range' (ls : List String) (s n : Nat) (h : s + n ≤ ls.length) :
    (List.range' s n).map (fun i => ls.getD i "") = (ls.drop s).take n := by
  induction n generalizing s with
  | zero => simp
  | succ n ih =>
    have hs : s < ls.length := by omega
    rw [List.range'_succ, List.map_cons, ih (s + 1) (by omega),
      List.drop_eq_getElem_cons hs, List.take_succ_cons,
      List.getD_eq_getElem ls "" hs]

/-- The descending loop therefore reads a reversed slice. -/
theorem map_getD_downTo (ls : List String) (hi lo : Nat) (h : hi < ls.length) :
    (downTo hi lo).map (fun i => ls.getD i "") =
      ((ls.drop (lo + 1)).take (hi - lo)).reverse := by
  rcases Nat.lt_or_ge lo hi with hlo | hlo
  · rw [downTo, List.map_reverse, map_getD_range' ls (lo + 1) (hi - lo) (by omega)]
  · have hz : hi - lo = 0 := by omega
    simp [downTo, hz]

/-- C6: with the bound 10 of `setHistogramLabels`/`setSessionLabels`, a
non-empty label list of length `n` produces `min n 10` slots: for
`n ≤ 10` every label occupies its own slot in reversed (end-of-input
first) order; for `n > 10` the 9 trailing labels occupy slots in
reversed order and the `n - 9` leading labels are dot-joined into the
10th slot. -/
theorem C6_reverseLabelsBounded_bound10 (ls : List String) (h : ls ≠ []) :
    reverseLabelsBounded (some ls) 10 =
      some (if ls.length ≤ 10 then ls.reverse
        else (ls.drop (ls.length - 9)).reverse ++
          [String.intercalate "." (ls.take (ls.length - 9)).reverse]) ∧
    (∀ out, reverseLabelsBounded (some ls) 10 = some out →
      out.length = min ls.length 10) := by
  have hmain : reverseLabelsBounded (some ls) 10 =
      some (if ls.length ≤ 10 then ls.reverse
        else (ls.drop (ls.length - 9)).reverse ++
          [String.intercalate "." (ls.take (ls.length - 9)).reverse]) := by
    by_cases hle : ls.length ≤ 10
    · obtain ⟨a, t, rfl⟩ : ∃ a t, ls = a :: t := by
        cases ls with
        | nil => exact absurd rfl h
        | cons a t => exact ⟨a, t, rfl⟩
      have hgt : ¬ ((a :: t).length > 10) := by omega
      simp only [reverseLabelsBounded, if_neg hgt, if_pos hle]
      rw [map_getD_downTo _ _ _ (by simp)]
      simp [List.take_length]
    · have hgt : ls.length > 10 := by omega
      have hr : ls.length - 10 > 0 := by omega
      simp only [reverseLabelsBounded, if_pos hgt, if_neg hle, if_pos hr]
      rw [map_getD_downTo _ _ _ (by omega)]
      have h1 : ls.length - 1 - (ls.length - 10) = 9 := by omega
      have h2 : ls.length - 10 + 1 = ls.length - 9 := by omega
      rw [h1, h2]
      have h3 : (ls.drop (ls.length - 9)).take 9 = ls.drop (ls.length - 9) := by
        apply List.take_of_length_le
        simp
        omega
      rw [h3]
      have h4 : downTo (ls.length - 10) 0 ++ [0] =
          (List.range' 0 (ls.length - 10 + 1)).reverse := by
        rw [List.range'_succ 0 (ls.length - 10) 1]
        simp [downTo]
      rw [h4, List.map_reverse,
        map_getD_range' ls 0 (ls.length - 10 + 1) (by omega), h2]
      simp
  refine ⟨hmain, ?_⟩
  intro out hout
  rw [hmain] at hout
  obtain rfl := Option.some.inj hout
  by_cases hle : ls.length ≤ 10
  · rw [if_pos hle]
    simp
    omega
  · rw [if_neg hle]
    simp
    omega

theorem C6_reverseLabelsBounded_bound10_witness :
    reverseLabelsBounded (some ["www", "example", "com"]) 10 =
      some ["com", "example", "www"] ∧
    reverseLabelsBounded
        (some ["a", "b", "c", "d", "e", "f", "g", "h", "i", "j", "k", "l"]) 10 =
      some ["l", "k", "j", "i", "h", "g", "f", "e", "d", "c.b.a"] := by
  constructor
  · rw [(C6_reverseLabelsBounded_bound10 ["www", "example", "com"]
      (by decide)).1]
    decide
  · rw [(C6_reverseLabelsBounded_bound10
      ["a", "b", "c", "d", "e", "f", "g", "h", "i", "j", "k", "l"]
      (by decide)).1]
    decide

/-! ## runMinimiser per-frame control flow

From the body of the `select` case `frame := <-edm.inputChannel` in
`runMinimiser`.  Each external test on the frame (protobuf unmarshal,
query detection, ignore set, DNS unpack, question checks, tracker hit)
is abstracted to the boolean it produces; the embedding records which of
`break minimiserLoop` / `continue` / further processing the loop body
takes. -/

/-- Outcome of one iteration of the minimiser loop on a frame. -/
inductive MinimiserAction where
  /-- `break minimiserLoop`: the worker loop exits. -/
  | exitLoop
  /-- `continue`: the record is dropped and the worker reads the next frame. -/
  | skip
  /-- The record hits the well-known tracker: `sendUpdate` then `continue`. -/
  | wellKnownUpdate
  /-- The record falls through to first-seen/new-name/session handling. -/
  | collectRecord
  deriving DecidableEq, Repr

/-- The outcomes of the external tests performed on one frame, in the
order the loop body consults them. -/
structure FrameCase where
  /-- `proto.Unmarshal(frame, dt)` returned no error. -/
  unmarshalOk : Bool
  /-- The dnstap message type name ends in `_QUERY`. -/
  isQuery : Bool
  /-- `edm.clientIPIsIgnored(dt)`. -/
  clientIPIgnored : Bool
  /-- `edm.parsePacket` returned a non-nil DNS message. -/
  msgParses : Bool
  /-- `len(msg.Question) != 0`. -/
  hasQuestion : Bool
  /-- `dns.IsDomainName(msg.Question[0].Name)` succeeded. -/
  nameValid : Bool
  /-- The tracker lookup returned an index different from `dawgNotFound`. -/
  wellKnownHit : Bool
  deriving DecidableEq, Repr

/-- The control-flow skeleton of the `runMinimiser` loop body. -/
def runMinimiserStep (f : FrameCase) : MinimiserAction :=
  if !f.unmarshalOk then MinimiserAction.exitLoop
  else if f.isQuery then MinimiserAction.skip
  else if f.clientIPIgnored then MinimiserAction.skip
  else if !f.msgParses then MinimiserAction.skip
  else if !f.hasQuestion then MinimiserAction.skip
  else if !f.nameValid then MinimiserAction.skip
  else if f.wellKnownHit then MinimiserAction.wellKnownUpdate
  else MinimiserAction.collectRecord

/-- C1 counterexample: a frame that fails protobuf unmarshalling makes
the worker loop exit (`break minimiserLoop`) instead of continuing with
the next frame, so a record failure does stop the worker. -/
theorem C1_counterexample_unmarshal_failure_exits :
    runMinimiserStep
        { unmarshalOk := false, isQuery := false, clientIPIgnored := false,
          msgParses := false, hasQuestion := false, nameValid := false,
          wellKnownHit := false } = MinimiserAction.exitLoop ∧
    runMinimiserStep
        { unmarshalOk := false, isQuery := false, clientIPIgnored := false,
          msgParses := false, hasQuestion := false, nameValid := false,
          wellKnownHit := false } ≠ MinimiserAction.skip := by
  decide

/-- C1 amended: a protobuf unmarshal failure is the only record outcome
that exits the worker loop; every later per-record failure (DNS message
unparseable, empty question section, invalid question name) and every
filtered record (query, ignored client) is skipped and the worker
continues with the next frame. -/
theorem C1_minimiser_failure_semantics (f : FrameCase) :
    (runMinimiserStep f = MinimiserAction.exitLoop ↔ f.unmarshalOk = false) ∧
    (f.unmarshalOk = true → f.isQuery = false → f.clientIPIgnored = false →
      f.msgParses = false → runMinimiserStep f = MinimiserAction.skip) ∧
    (f.unmarshalOk = true → f.isQuery = false → f.clientIPIgnored = false →
      f.msgParses = true → f.hasQuestion = false →
      runMinimiserStep f = MinimiserAction.skip) ∧
    (f.unmarshalOk = true → f.isQuery = false → f.clientIPIgnored = false →
      f.msgParses = true → f.hasQuestion = true → f.nameValid = false →
      runMinimiserStep f = MinimiserAction.skip) := by
  refine ⟨?_, ?_, ?_, ?_⟩
  · rcases f with ⟨u, q, ig, mp, hq, nv, wk⟩
    cases u <;> cases q <;> cases ig <;> cases mp <;> cases hq <;> cases nv <;>
      cases wk <;> decide
  · intro h1 h2 h3 h4
    simp [runMinimiserStep, h1, h2, h3, h4]
  · intro h1 h2 h3 h4 h5
    simp [runMinimiserStep, h1, h2, h3, h4, h5]
  · intro h1 h2 h3 h4 h5 h6
    simp [runMinimiserStep, h1, h2, h3, h4, h5, h6]

theorem C1_minimiser_failure_semantics_witness :
    (({ unmarshalOk := true, isQuery := false, clientIPIgnored := false,
        msgParses := false, hasQuestion := false, nameValid := false,
        wellKnownHit := false } : FrameCase).msgParses = false) ∧
    runMinimiserStep
        { unmarshalOk := true, isQuery := false, clientIPIgnored := false,
          msgParses := false, hasQuestion := false, nameValid := false,
          wellKnownHit := false } = MinimiserAction.skip :=
  ⟨rfl, (C1_minimiser_failure_semantics _).2.1 rfl rfl rfl rfl⟩

/-! ## newSession

From `newSession`, `ipBytesToInt`, `ip6BytesToInt` and
`setSessionLabels` in the runner package.  `dns.SplitDomainName` is an
external collaborator; its result is taken as the `msgLabels` argument.
Go's `int32(...)`/`int64(...)` conversions of unsigned values are
embedded as `toInt32`/`toInt64`. -/

/-- Go `int32(u)` for an unsigned value: two's-complement wrap. -/
def toInt32 (n : Nat) : Int :=
  if n % 2 ^ 32 < 2 ^ 31 then (n % 2 ^ 32 : Int) else (n % 2 ^ 32 : Int) - 2 ^ 32

/-- Go `int64(u)` for an unsigned value: two's-complement wrap. -/
def toInt64 (n : Nat) : Int :=
  if n % 2 ^ 64 < 2 ^ 63 then (n % 2 ^ 64 : Int) else (n % 2 ^ 64 : Int) - 2 ^ 64

/-- `binary.BigEndian`: big-endian byte-list to unsigned integer. -/
def beUint (b : List Nat) : Nat := b.foldl (fun acc x => acc * 256 + x) 0

/-- Model of `netip.Addr.As4`: the 4 bytes of an IPv4 or v4-mapped
address; `none` models the Go panic on any other IPv6 address. -/
def GoAddr.as4 : GoAddr → Option (List Nat)
  | GoAddr.v4 b => some b
  | GoAddr.v6 b => if isV4Mapped16 b then some (b.drop 12) else none

/-- Model of `netip.Addr.As16`: IPv4 addresses are returned in their
v4-mapped 16-byte form. -/
def GoAddr.as16 : GoAddr → List Nat
  | GoAddr.v4 b => v4MappedLeadIn ++ b
  | GoAddr.v6 b => b

/-- From `ipBytesToInt`: parse the bytes, then `As4` then big-endian
`Uint32`.  The outer `Option` is `none` exactly when `As4` would panic
(a non-mapped IPv6 address); the inner `Except` is the Go error
return. -/
def ipBytesToInt (ip4Bytes : List Nat) : Option (Except Unit Nat) :=
  match addrFromSlice ip4Bytes with
  | none => some (Except.error ())
  | some ip =>
    match ip.as4 with
    | none => none
    | some ip4 => some (Except.ok (beUint ip4))

/-- From `ip6BytesToInt`: parse the bytes, then `As16` and the two
big-endian `Uint64` halves. -/
def ip6BytesToInt (ip6Bytes : List Nat) : Except Unit (Nat × Nat) :=
  match addrFromSlice ip6Bytes with
  | none => Except.error ()
  | some ip =>
    Except.ok (beUint (ip.as16.take 8), beUint (ip.as16.drop 8))

/-- The fields of the Go `sessionData` parquet struct that `newSession`
assigns (pointer fields are `Option`; wire bytes and the identity stay
byte lists). -/
structure sessionData where
  label0 : Option String := none
  label1 : Option String := none
  label2 : Option String := none
  label3 : Option String := none
  label4 : Option String := none
  label5 : Option String := none
  label6 : Option String := none
  label7 : Option String := none
  label8 : Option String := none
  label9 : Option String := none
  serverID : Option (List Nat) := none
  queryTime : Option Int := none
  responseTime : Option Int := none
  sourceIPv4 : Option Int := none
  destIPv4 : Option Int := none
  sourceIPv6Network : Option Int := none
  sourceIPv6Host : Option Int := none
  destIPv6Network : Option Int := none
  destIPv6Host : Option Int := none
  sourcePort : Option Int := none
  destPort : Option Int := none
  dnsProtocol : Option Int := none
  queryMessage : Option (List Nat) := none
  responseMessage : Option (List Nat) := none
  deriving DecidableEq, Repr

/-- One assignment of the `switch index` in `setSessionLabels`: a slot
is overwritten only when the reversed label list reaches its index. -/
def slotValue (cur : Option String) (v : Option String) : Option String :=
  match v with
  | some s => some s
  | none => cur

/-- From `setSessionLabels`: nil labels leave every slot nil; otherwise
the bounded reversed labels fill slots 0-9. -/
def setSessionLabels (labels : Option (List String)) (labelLimit : Nat)
    (sd : sessionData) : sessionData :=
  match labels with
  | none => sd
  | some ls =>
    match reverseLabelsBounded (some ls) labelLimit with
    | none => sd
    | some revLabels =>
      { sd with
        label0 := slotValue sd.label0 (revLabels.get? 0)
        label1 := slotValue sd.label1 (revLabels.get? 1)
        label2 := slotValue sd.label2 (revLabels.get? 2)
        label3 := slotValue sd.label3 (revLabels.get? 3)
        label4 := slotValue sd.label4 (revLabels.get? 4)
        label5 := slotValue sd.label5 (revLabels.get? 5)
        label6 := slotValue sd.label6 (revLabels.get? 6)
        label7 := slotValue sd.label7 (revLabels.get? 7)
        label8 := slotValue sd.label8 (revLabels.get? 8)
        label9 := slotValue sd.label9 (revLabels.get? 9) }

/-- `dnstap.SocketFamily_INET`. -/
def socketFamilyINET : Nat := 1

/-- `dnstap.SocketFamily_INET6`. -/
def socketFamilyINET6 : Nat := 2

/-- The dnstap message fields consulted by `newSession`. -/
structure DnstapMessage where
  socketFamily : Nat
  socketProtocol : Option Int
  queryAddress : Option (List Nat)
  responseAddress : Option (List Nat)
  queryPort : Option Nat
  responsePort : Option Nat
  queryMessage : List Nat
  responseMessage : List Nat
  identity : List Nat
  deriving DecidableEq, Repr

/-- From `newSession`.  The result is `none` exactly when the Go code
would panic (an `As4` call on a non-mapped IPv6 address in the INET
branch).  In the INET6 branch the response-address halves are assigned
to the source fields, mirroring the source line for line. -/
def newSession (msgLabels : Option (List String)) (dt : DnstapMessage)
    (isQuery : Bool) (labelLimit : Nat) (timestampMicro : Int) :
    Option sessionData :=
  let sd : sessionData := {}
  let sd := match dt.queryPort with
    | some qp => { sd with sourcePort := some (toInt32 qp) }
    | none => sd
  let sd := match dt.responsePort with
    | some rp => { sd with destPort := some (toInt32 rp) }
    | none => sd
  let sd := setSessionLabels msgLabels labelLimit sd
  let sd := if isQuery then
      { sd with queryMessage := some dt.queryMessage,
                queryTime := some timestampMicro }
    else
      { sd with responseMessage := some dt.responseMessage,
                responseTime := some timestampMicro }
  let sd := if dt.identity.length ≠ 0 then
      { sd with serverID := some dt.identity }
    else sd
  if dt.socketFamily = socketFamilyINET then
    (match dt.queryAddress with
      | none => some sd
      | some qa =>
        match ipBytesToInt qa with
        | none => none
        | some (Except.error _) => some sd
        | some (Except.ok v) =>
          some { sd with sourceIPv4 := some (toInt32 v) }).bind
      (fun (sd : sessionData) =>
        (match dt.responseAddress with
          | none => some sd
          | some ra =>
            match ipBytesToInt ra with
            | none => none
            | some (Except.error _) => some sd
            | some (Except.ok v) =>
              some { sd with destIPv4 := some (toInt32 v) }).map
          (fun (sd : sessionData) => { sd with dnsProtocol := dt.socketProtocol }))
  else if dt.socketFamily = socketFamilyINET6 then
    let sd := match dt.queryAddress with
      | none => sd
      | some qa =>
        match ip6BytesToInt qa with
        | Except.error _ => sd
        | Except.ok (net, host) =>
          { sd with sourceIPv6Network := some (toInt64 net),
                    sourceIPv6Host := some (toInt64 host) }
    let sd := match dt.responseAddress with
      | none => sd
      | some ra =>
        match ip6BytesToInt ra with
        | Except.error _ => sd
        | Except.ok (net, host) =>
          { sd with sourceIPv6Network := some (toInt64 net),
                    sourceIPv6Host := some (toInt64 host) }
    some { sd with dnsProtocol := dt.socketProtocol }
  else
    some { sd with dnsProtocol := dt.socketProtocol }

/-- A concrete INET6 response record: query address `2001:db8::1`,
response address `2001:db8::2`, both present and parseable. -/
def c2Message : DnstapMessage :=
  { socketFamily := socketFamilyINET6
    socketProtocol := some 1
    queryAddress := some [32, 1, 13, 184, 0, 0, 0, 0, 0, 0, 0, 0, 0, 0, 0, 1]
    responseAddress := some [32, 1, 13, 184, 0, 0, 0, 0, 0, 0, 0, 0, 0, 0, 0, 2]
    queryPort := some 53000
    responsePort := some 53
    queryMessage := []
    responseMessage := [7]
    identity := [101, 100, 109] }

/-- C2: for an INET6 response whose response address is present and
parseable, `newSession` leaves `dest_ipv6_network`/`dest_ipv6_host`
unset and writes the response-address halves into
`source_ipv6_network`/`source_ipv6_host`, overwriting the query-address
halves (host half 1 becomes 2), contradicting the schema. -/
theorem C2_inet6_response_address_written_to_source_fields :
    (newSession (some ["www", "example", "com"]) c2Message false 10
        1700000000000000).map sessionData.destIPv6Network = some none ∧
    (newSession (some ["www", "example", "com"]) c2Message false 10
        1700000000000000).map sessionData.destIPv6Host = some none ∧
    (newSession (some ["www", "example", "com"]) c2Message false 10
        1700000000000000).map sessionData.sourceIPv6Network =
      some (some 2306139568115548160) ∧
    (newSession (some ["www", "example", "com"]) c2Message false 10
        1700000000000000).map sessionData.sourceIPv6Host = some (some 2) := by
  refine ⟨rfl, rfl, ?_, rfl⟩
  decide

/-! ## Well-known domain tracker lookup

From `dawgIndex` and `lookup` on `wellKnownDomainsTracker`.  The DAWG
dictionary (`dawg.Finder.IndexOf`, external) is passed in as
`finder : List Char → Int` returning `dawgNotFound` on miss.
`dns.NextLabel` (external, miekg/dns) is modelled for names without
escape characters: it scans for the next dot strictly before the final
position. -/

/-- `dawgNotFound` from the runner package. -/
def dawgNotFound : Int := -1

/-- The scan loop of `dns.NextLabel` (no escape characters): from
position `i`, find the first dot before the final position. -/
def nextLabelScan (s : List Char) (i : Nat) : Nat × Bool :=
  if h : i < s.length - 1 then
    if s.getD i ' ' = '.' then (i + 1, false) else nextLabelScan s (i + 1)
  else (i + 1, true)
termination_by s.length - 1 - i
decreasing_by omega

/-- `dns.NextLabel` (no escape characters): empty strings end at once. -/
def nextLabel (s : List Char) (offset : Nat) : Nat × Bool :=
  if s = [] then (0, true) else nextLabelScan s offset

/-- A `(i2, false)` result of the scan moves the position strictly
forward and stays before the end of the string. -/
theorem nextLabelScan_false_bounds_aux (s : List Char) :
    ∀ k i i2, s.length - 1 - i = k → nextLabelScan s i = (i2, false) →
      i < i2 ∧ i2 ≤ s.length - 1 := by
  intro k
  induction k with
  | zero =>
    intro i i2 hk h
    have hnot : ¬ i < s.length - 1 := by omega
    rw [nextLabelScan, dif_neg hnot] at h
    exact absurd (congrArg Prod.snd h) (by simp)
  | succ k ih =>
    intro i i2 hk h
    have hlt : i < s.length - 1 := by omega
    rw [nextLabelScan, dif_pos hlt] at h
    by_cases hd : s.getD i ' ' = '.'
    · rw [if_pos hd] at h
      obtain ⟨h1, _⟩ := Prod.mk.inj h
      omega
    · rw [if_neg hd] at h
      have := ih (i + 1) i2 (by omega) h
      omega

/-- Bounds of a `(i2, false)` scan result, without the fuel argument. -/
theorem nextLabelScan_false_bounds (s : List Char) (i i2 : Nat)
    (h : nextLabelScan s i = (i2, false)) : i < i2 ∧ i2 ≤ s.length - 1 :=
  nextLabelScan_false_bounds_aux s (s.length - 1 - i) i i2 rfl h

/-- The suffix loop of `dawgIndex`: look up the dot-prefixed tail
`name[index-1:]`, return on hit, otherwise advance with `nextLabel`.
Entered only with the `false` (not-end) component of `nextLabel`. -/
def dawgLoop (finder : List Char → Int) (name : List Char) (index : Nat) :
    Int × Bool :=
  let dawgIdx := finder (name.drop (index - 1))
  if dawgIdx ≠ dawgNotFound then (dawgIdx, true)
  else
    let nl := nextLabel name index
    if hnl : nl.2 then (dawgNotFound, false)
    else dawgLoop finder name nl.1
termination_by name.length - index
decreasing_by
  have hsnd : (nextLabel name index).2 = false := by
    revert hnl
    cases (nextLabel name index).2 <;> simp
  have hpair : nextLabel name index = ((nextLabel name index).1, false) := by
    calc nextLabel name index
        = ((nextLabel name index).1, (nextLabel name index).2) := rfl
      _ = ((nextLabel name index).1, false) := by rw [hsnd]
  by_cases hn : name = []
  · rw [nextLabel, if_pos hn] at hpair
    exact absurd (congrArg Prod.snd hpair) (by simp)
  · rw [nextLabel, if_neg hn] at hpair
    have hb := nextLabelScan_false_bounds name index _ hpair
    have hlen : 0 < name.length := List.length_pos.mpr hn
    have hfst : (nextLabel name index).1 = (nextLabelScan name index).1 := by
      rw [nextLabel, if_neg hn]
    omega

/-- From `dawgIndex` on `wellKnownDomainsTracker`: exact match first,
then the dot-prefixed tails. -/
def dawgIndex (finder : List Char → Int) (name : List Char) : Int × Bool :=
  let exact := finder name
  if exact = dawgNotFound then
    let nl := nextLabel name 0
    if nl.2 then (dawgNotFound, false)
    else dawgLoop finder name nl.1
  else (exact, false)

/-- From `lookup` on `wellKnownDomainsTracker`: the lookup returns the
index, the suffix flag and the tracked dictionary revision time. -/
def lookup (finder : List Char → Int) (dawgModTime : Int) (name : List Char) :
    Int × Bool × Int :=
  ((dawgIndex finder name).1, (dawgIndex finder name).2, dawgModTime)

/-- Dot positions of `name` at or after `off`, excluding the final
position (a trailing root dot is not a label boundary). -/
def dotsFrom (name : List Char) (off : Nat) : List Nat :=
  (List.range' off (name.length - 1 - off)).filter
    (fun p => name.getD p ' ' = '.')

/-- All label-boundary dot positions of `name`, in ascending order. -/
def dotPositions (name : List Char) : List Nat := dotsFrom name 0

/-- The dot-prefixed tails of `name` in longest-first order: this is the
candidate sequence the specification describes (".example.com." before
".com."). -/
def dotTails (name : List Char) : List (List Char) :=
  (dotPositions name).map (fun p => name.drop p)

/-- Past the last label boundary there are no dots left. -/
theorem dotsFrom_stop (name : List Char) (off : Nat)
    (h : ¬ off < name.length - 1) : dotsFrom name off = [] := by
  rw [dotsFrom]
  have hz : name.length - 1 - off = 0 := by omega
  rw [hz]
  rfl

/-- A dot at the scan position heads the remaining dot positions. -/
theorem dotsFrom_step_dot (name : List Char) (off : Nat)
    (hoff : off < name.length - 1) (hd : name.getD off ' ' = '.') :
    dotsFrom name off = off :: dotsFrom name (off + 1) := by
  have harith : name.length - 1 - off = (name.length - 1 - (off + 1)) + 1 := by
    omega
  rw [dotsFrom, harith, List.range'_succ, List.filter_cons]
  simp only [decide_eq_true_eq]
  rw [if_pos hd]
  rfl

/-- A non-dot at the scan position contributes nothing. -/
theorem dotsFrom_step_nodot (name : List Char) (off : Nat)
    (hoff : off < name.length - 1) (hd : ¬ name.getD off ' ' = '.') :
    dotsFrom name off = dotsFrom name (off + 1) := by
  have harith : name.length - 1 - off = (name.length - 1 - (off + 1)) + 1 := by
    omega
  rw [dotsFrom, harith, List.range'_succ, List.filter_cons]
  simp only [decide_eq_true_eq]
  rw [if_neg hd]
  rfl

/-- The specification of the suffix search from position `off`: the
first (longest) dot-prefixed tail there that the dictionary knows. -/
def suffixSpec (finder : List Char → Int) (name : List Char) (off : Nat) :
    Int × Bool :=
  match ((dotsFrom name off).map (fun p => name.drop p)).find?
      (fun t => finder t ≠ dawgNotFound) with
  | some t => (finder t, true)
  | none => (dawgNotFound, false)

theorem suffixSpec_stop (finder : List Char → Int) (name : List Char)
    (off : Nat) (h : ¬ off < name.length - 1) :
    suffixSpec finder name off = (dawgNotFound, false) := by
  rw [suffixSpec, dotsFrom_stop name off h]
  rfl

theorem suffixSpec_nodot (finder : List Char → Int) (name : List Char)
    (off : Nat) (hoff : off < name.length - 1)
    (hd : ¬ name.getD off ' ' = '.') :
    suffixSpec finder name off = suffixSpec finder name (off + 1) := by
  rw [suffixSpec, suffixSpec, dotsFrom_step_nodot name off hoff hd]

theorem suffixSpec_dot (finder : List Char → Int) (name : List Char)
    (off : Nat) (hoff : off < name.length - 1)
    (hd : name.getD off ' ' = '.') :
    suffixSpec finder name off =
      if finder (name.drop off) ≠ dawgNotFound then (finder (name.drop off), true)
      else suffixSpec finder name (off + 1) := by
  rw [suffixSpec, dotsFrom_step_dot name off hoff hd, List.map_cons]
  by_cases hhit : finder (name.drop off) ≠ dawgNotFound
  · rw [List.find?_cons_of_pos _ (by simpa using hhit), if_pos hhit]
  · rw [List.find?_cons_of_neg _ (by simpa using hhit), if_neg hhit]
    rfl

/-- The `dawgIndex` suffix loop computes exactly the first-match search
over the remaining dot-prefixed tails. -/
theorem dawg_loop_spec (finder : List Char → Int) (name : List Char)
    (hne : name ≠ []) :
    ∀ k off, name.length - 1 - off = k →
      (if (nextLabel name off).2 then ((dawgNotFound : Int), false)
        else dawgLoop finder name (nextLabel name off).1) =
      suffixSpec finder name off := by
  intro k
  induction k with
  | zero =>
    intro off hk
    have hnot : ¬ off < name.length - 1 := by omega
    rw [nextLabel, if_neg hne, nextLabelScan, dif_neg hnot,
      suffixSpec_stop finder name off hnot]
    rfl
  | succ k ih =>
    intro off hk
    have hoff : off < name.length - 1 := by omega
    rw [nextLabel, if_neg hne, nextLabelScan, dif_pos hoff]
    by_cases hd : name.getD off ' ' = '.'
    · rw [if_pos hd]
      have hcond : ¬ (((off + 1 : Nat), false).2 = true) := by simp
      rw [if_neg hcond]
      show dawgLoop finder name (off + 1) = suffixSpec finder name off
      rw [dawgLoop, suffixSpec_dot finder name off hoff hd]
      show (if finder (name.drop (off + 1 - 1)) ≠ dawgNotFound
          then (finder (name.drop (off + 1 - 1)), true)
          else if (nextLabel name (off + 1)).2 = true
            then ((dawgNotFound : Int), false)
            else dawgLoop finder name (nextLabel name (off + 1)).1) = _
      have hdrop : off + 1 - 1 = off := rfl
      rw [hdrop]
      by_cases hhit : finder (name.drop off) ≠ dawgNotFound
      · rw [if_pos hhit, if_pos hhit]
      · rw [if_neg hhit, if_neg hhit]
        exact ih (off + 1) (by omega)
    · rw [if_neg hd, suffixSpec_nodot finder name off hoff hd]
      have hthis := ih (off + 1) (by omega)
      rw [nextLabel, if_neg hne] at hthis
      exact hthis

/-- C4: for names without escape characters, the tracker lookup tries
the exact name first and returns its index with `suffix_match = false`
on a hit; on a miss it returns the index of the first (longest)
dot-prefixed tail the dictionary knows with `suffix_match = true`, and
`(dawgNotFound, false)` when no tail matches.  The tails are genuinely
dot-prefixed and ordered longest first. -/
theorem C4_dawgIndex_exact_then_longest_suffix (finder : List Char → Int)
    (name : List Char) (hnb : ('\\' : Char) ∉ name) :
    (dawgIndex finder name =
      if finder name = dawgNotFound then
        match (dotTails name).find? (fun t => finder t ≠ dawgNotFound) with
        | some t => (finder t, true)
        | none => (dawgNotFound, false)
      else (finder name, false)) ∧
    (∀ t ∈ dotTails name, t.head? = some '.') ∧
    List.Pairwise (fun a b => b.length < a.length) (dotTails name) := by
  refine ⟨?_, ?_, ?_⟩
  · simp only [dawgIndex]
    by_cases hexact : finder name = dawgNotFound
    · rw [if_pos hexact, if_pos hexact]
      by_cases hne : name = []
      · subst hne
        rfl
      · have hspec := dawg_loop_spec finder name hne (name.length - 1 - 0) 0 rfl
        exact hspec.trans rfl
    · rw [if_neg hexact, if_neg hexact]
  · intro t ht
    obtain ⟨p, hp, rfl⟩ := List.mem_map.mp ht
    have hp2 := List.mem_filter.mp hp
    have hrange := List.mem_range'_1.mp hp2.1
    have hdot : name.getD p ' ' = '.' := by simpa using hp2.2
    have hlt : p < name.length := by
      rcases hrange with ⟨h1, h2⟩
      omega
    rw [List.head?_drop, List.getElem?_eq_getElem hlt]
    rw [List.getD_eq_getElem name ' ' hlt] at hdot
    rw [hdot]
  · have h1 : List.Pairwise (· < ·) (List.range' 0 (name.length - 1)) :=
      List.pairwise_lt_range' ..
    have h3 : List.Pairwise (fun a b => a < b) (dotPositions name) :=
      h1.filter (fun p => decide (name.getD p ' ' = '.'))
    have h4 : List.Pairwise
        (fun a b => (name.drop b).length < (name.drop a).length)
        (dotPositions name) := by
      refine h3.imp_of_mem ?_
      intro a b ha hb hab
      have hb2 := List.mem_filter.mp hb
      have hbr := List.mem_range'_1.mp hb2.1
      simp only [List.length_drop]
      omega
    exact List.pairwise_map.mpr h4

theorem C4_dawgIndex_exact_then_longest_suffix_witness :
    ('\\' : Char) ∉ "www.example.com.".toList ∧
    dawgIndex
      (fun t => if t = ".example.com.".toList then 7
        else if t = ".com.".toList then 3 else dawgNotFound)
      "www.example.com.".toList = (7, true) := by
  constructor
  · decide
  · have h := (C4_dawgIndex_exact_then_longest_suffix
      (fun t => if t = ".example.com.".toList then 7
        else if t = ".com.".toList then 3 else dawgNotFound)
      "www.example.com.".toList (by decide)).1
    rw [h]
    decide

/-! ## Well-known update messages and the aggregation collector

From `histogramData`, `wkdUpdate`, `sendUpdate` and the `wkd.updateCh`
case of `dataCollector`.  Counters are Go `int64`, embedded as `Int`
(the collector only ever adds small non-negative increments).  The two
HLL sketches (`hll.Hll`, external) are modelled by the list of raw
hashes passed to `AddRaw`; their cardinality is the number of distinct
hashes, which every HLL estimate is a monotone function of.  Fields the
collector never touches (labels, start time, serialised sketch bytes)
are omitted. -/

/-- `edmStatusWellKnownExact` (1 << 0). -/
def edmStatusWellKnownExact : Int := 1

/-- `edmStatusWellKnownWildcard` (1 << 1). -/
def edmStatusWellKnownWildcard : Int := 2

/-- The counter/status/sketch fields of `histogramData`. -/
structure histogramData where
  ACount : Int := 0
  AAAACount : Int := 0
  MXCount : Int := 0
  NSCount : Int := 0
  OtherTypeCount : Int := 0
  NonINCount : Int := 0
  OKCount : Int := 0
  NXCount : Int := 0
  FailCount : Int := 0
  OtherRcodeCount : Int := 0
  DTMStatusBits : Int := 0
  v4ClientHLL : List Nat := []
  v6ClientHLL : List Nat := []
  deriving DecidableEq, Repr

/-- The parts of a `dns.Msg` consulted by `sendUpdate` and the
retryer. -/
structure DNSMsg where
  qname : List Char
  rcode : Nat
  qclass : Nat
  qtype : Nat
  deriving DecidableEq, Repr

/-- `dns.RcodeSuccess`. -/
def rcodeSuccess : Nat := 0

/-- `dns.RcodeServerFailure`. -/
def rcodeServerFailure : Nat := 2

/-- `dns.RcodeNameError`. -/
def rcodeNameError : Nat := 3

/-- `dns.ClassINET`. -/
def classINET : Nat := 1

/-- `dns.TypeA`. -/
def typeA : Nat := 1

/-- `dns.TypeNS`. -/
def typeNS : Nat := 2

/-- `dns.TypeMX`. -/
def typeMX : Nat := 15

/-- `dns.TypeAAAA`. -/
def typeAAAA : Nat := 28

/-- `wkdUpdate`: the embedded `histogramData` carries the per-update
increments; `ip` is `none` when the client bytes did not parse (the
invalid zero `netip.Addr`). -/
structure wkdUpdate where
  hist : histogramData
  dawgIndex : Int
  suffixMatch : Bool
  hllHash : Nat
  ip : Option GoAddr
  msg : DNSMsg
  dawgModTime : Int
  retry : Nat
  retryLimit : Nat
  deriving DecidableEq, Repr

/-- The `switch msg.Rcode` of `sendUpdate`. -/
def bumpRcode (h : histogramData) (rcode : Nat) : histogramData :=
  if rcode = rcodeSuccess then { h with OKCount := h.OKCount + 1 }
  else if rcode = rcodeNameError then { h with NXCount := h.NXCount + 1 }
  else if rcode = rcodeServerFailure then { h with FailCount := h.FailCount + 1 }
  else { h with OtherRcodeCount := h.OtherRcodeCount + 1 }

/-- The question class/type switch of `sendUpdate`. -/
def bumpQuestion (h : histogramData) (qclass qtype : Nat) : histogramData :=
  if qclass = classINET then
    if qtype = typeA then { h with ACount := h.ACount + 1 }
    else if qtype = typeAAAA then { h with AAAACount := h.AAAACount + 1 }
    else if qtype = typeMX then { h with MXCount := h.MXCount + 1 }
    else if qtype = typeNS then { h with NSCount := h.NSCount + 1 }
    else { h with OtherTypeCount := h.OtherTypeCount + 1 }
  else { h with NonINCount := h.NonINCount + 1 }

/-- From `sendUpdate` on `wellKnownDomainsTracker` (murmur3.Sum64 is an
external collaborator passed in as `murmurSum64`); the channel send at
the end is the produced value. -/
def sendUpdate (murmurSum64 : List Nat → Nat) (ipBytes : List Nat)
    (msg : DNSMsg) (dawgIdx : Int) (suffixMatch : Bool) (dawgModTime : Int) :
    wkdUpdate :=
  let wu : wkdUpdate :=
    { hist := {}, dawgIndex := dawgIdx, suffixMatch := suffixMatch,
      dawgModTime := dawgModTime, hllHash := 0, retryLimit := 10, retry := 0,
      ip := none, msg := msg }
  let wu := match addrFromSlice ipBytes with
    | some ip => { wu with hllHash := murmurSum64 ipBytes, ip := some ip }
    | none => wu
  { wu with hist := bumpQuestion (bumpRcode wu.hist msg.rcode) msg.qclass msg.qtype }

/-- The fresh entry created on first upsert: the status bitset is set
exactly once, from the suffix flag (`dsb.set`). -/
def newEntryFor (wu : wkdUpdate) : histogramData :=
  { DTMStatusBits := if wu.suffixMatch then edmStatusWellKnownWildcard
      else edmStatusWellKnownExact }

/-- The ten `+=` lines of the collector's update case. -/
def addCounters (base : histogramData) (wu : wkdUpdate) : histogramData :=
  { base with
    OKCount := base.OKCount + wu.hist.OKCount
    NXCount := base.NXCount + wu.hist.NXCount
    FailCount := base.FailCount + wu.hist.FailCount
    ACount := base.ACount + wu.hist.ACount
    AAAACount := base.AAAACount + wu.hist.AAAACount
    MXCount := base.MXCount + wu.hist.MXCount
    NSCount := base.NSCount + wu.hist.NSCount
    OtherTypeCount := base.OtherTypeCount + wu.hist.OtherTypeCount
    OtherRcodeCount := base.OtherRcodeCount + wu.hist.OtherRcodeCount
    NonINCount := base.NonINCount + wu.hist.NonINCount }

/-- The `wu.ip.IsValid()` sketch update of the collector's update case:
`AddRaw` on the v4 sketch when the unmapped address is IPv4, else on the
v6 sketch. -/
def addSketch (e : histogramData) (wu : wkdUpdate) : histogramData :=
  match wu.ip with
  | none => e
  | some a =>
    if (GoAddr.unmap a).is4 then
      { e with v4ClientHLL := wu.hllHash :: e.v4ClientHLL }
    else
      { e with v6ClientHLL := wu.hllHash :: e.v6ClientHLL }

/-- The histogram map after a rotation: empty. -/
def emptyHistogramMap : Int → Option histogramData := fun _ => none

/-- The `case wu := <-wkd.updateCh` body of `dataCollector`: a stale
revision routes the update to the retry channel (second component)
leaving the map unchanged; otherwise the per-index entry is upserted. -/
def collectorUpdateStep (curModTime : Int) (m : Int → Option histogramData)
    (wu : wkdUpdate) : (Int → Option histogramData) × Option wkdUpdate :=
  if wu.dawgModTime ≠ curModTime then (m, some wu)
  else
    let base := match m wu.dawgIndex with
      | some e => e
      | none => newEntryFor wu
    (fun i => if i = wu.dawgIndex then some (addSketch (addCounters base wu) wu)
      else m i, none)

/-- The collector processing a sequence of updates between two
rotations. -/
def processUpdates (curModTime : Int) (us : List wkdUpdate)
    (m : Int → Option histogramData) : Int → Option histogramData :=
  match us with
  | [] => m
  | u :: rest => processUpdates curModTime rest (collectorUpdateStep curModTime m u).1

/-- All per-update counter increments are non-negative (true of every
update `sendUpdate` builds). -/
def wellFormedHist (h : histogramData) : Prop :=
  0 ≤ h.ACount ∧ 0 ≤ h.AAAACount ∧ 0 ≤ h.MXCount ∧ 0 ≤ h.NSCount ∧
  0 ≤ h.OtherTypeCount ∧ 0 ≤ h.NonINCount ∧ 0 ≤ h.OKCount ∧ 0 ≤ h.NXCount ∧
  0 ≤ h.FailCount ∧ 0 ≤ h.OtherRcodeCount

/-- Entry growth: every counter is at most the later value and each
sketch history is a sublist of the later one. -/
def entryLE (e e2 : histogramData) : Prop :=
  e.ACount ≤ e2.ACount ∧ e.AAAACount ≤ e2.AAAACount ∧
  e.MXCount ≤ e2.MXCount ∧ e.NSCount ≤ e2.NSCount ∧
  e.OtherTypeCount ≤ e2.OtherTypeCount ∧ e.NonINCount ≤ e2.NonINCount ∧
  e.OKCount ≤ e2.OKCount ∧ e.NXCount ≤ e2.NXCount ∧
  e.FailCount ≤ e2.FailCount ∧ e.OtherRcodeCount ≤ e2.OtherRcodeCount ∧
  e.v4ClientHLL.Sublist e2.v4ClientHLL ∧ e.v6ClientHLL.Sublist e2.v6ClientHLL

/-- The cardinality an HLL-class sketch estimates: distinct added
hashes. -/
def hllCardinality (l : List Nat) : Nat := l.toFinset.card

theorem entryLE_refl (e : histogramData) : entryLE e e := by
  refine ⟨le_refl _, le_refl _, le_refl _, le_refl _, le_refl _, le_refl _,
    le_refl _, le_refl _, le_refl _, le_refl _, List.Sublist.refl _,
    List.Sublist.refl _⟩

theorem entryLE_trans {a b c : histogramData} (h1 : entryLE a b)
    (h2 : entryLE b c) : entryLE a c := by
  obtain ⟨a1, a2, a3, a4, a5, a6, a7, a8, a9, a10, a11, a12⟩ := h1
  obtain ⟨b1, b2, b3, b4, b5, b6, b7, b8, b9, b10, b11, b12⟩ := h2
  exact ⟨le_trans a1 b1, le_trans a2 b2, le_trans a3 b3, le_trans a4 b4,
    le_trans a5 b5, le_trans a6 b6, le_trans a7 b7, le_trans a8 b8,
    le_trans a9 b9, le_trans a10 b10, a11.trans b11, a12.trans b12⟩

theorem hllCardinality_mono {l1 l2 : List Nat} (h : l1.Sublist l2) :
    hllCardinality l1 ≤ hllCardinality l2 := by
  apply Finset.card_le_card
  intro x hx
  rw [List.mem_toFinset] at hx ⊢
  exact h.subset hx

theorem addCounters_statusBits (base : histogramData) (wu : wkdUpdate) :
    (addCounters base wu).DTMStatusBits = base.DTMStatusBits := rfl

theorem addSketch_statusBits (e : histogramData) (wu : wkdUpdate) :
    (addSketch e wu).DTMStatusBits = e.DTMStatusBits := by
  rw [addSketch]
  match wu.ip with
  | none => rfl
  | some a =>
    by_cases h4 : (GoAddr.unmap a).is4
    · simp [h4]
    · simp [h4]

theorem entryLE_addCounters (base : histogramData) (wu : wkdUpdate)
    (hwf : wellFormedHist wu.hist) : entryLE base (addCounters base wu) := by
  obtain ⟨w1, w2, w3, w4, w5, w6, w7, w8, w9, w10⟩ := hwf
  refine ⟨?_, ?_, ?_, ?_, ?_, ?_, ?_, ?_, ?_, ?_, ?_, ?_⟩ <;>
    simp [addCounters] <;> omega

theorem entryLE_addSketch (e : histogramData) (wu : wkdUpdate) :
    entryLE e (addSketch e wu) := by
  rw [addSketch]
  match wu.ip with
  | none => exact entryLE_refl e
  | some a =>
    show entryLE e (if (GoAddr.unmap a).is4 then
        { e with v4ClientHLL := wu.hllHash :: e.v4ClientHLL }
      else { e with v6ClientHLL := wu.hllHash :: e.v6ClientHLL })
    by_cases h4 : (GoAddr.unmap a).is4
    · rw [if_pos h4]
      refine ⟨le_refl _, le_refl _, le_refl _, le_refl _, le_refl _, le_refl _,
        le_refl _, le_refl _, le_refl _, le_refl _, ?_, ?_⟩
      · exact List.sublist_cons_self _ _
      · exact List.Sublist.refl _
    · rw [if_neg h4]
      refine ⟨le_refl _, le_refl _, le_refl _, le_refl _, le_refl _, le_refl _,
        le_refl _, le_refl _, le_refl _, le_refl _, ?_, ?_⟩
      · exact List.Sublist.refl _
      · exact List.sublist_cons_self _ _

/-- One collector step grows an existing entry monotonically and leaves
its status bits alone. -/
theorem collectorUpdateStep_mono (cur : Int) (m : Int → Option histogramData)
    (wu : wkdUpdate) (hwf : wellFormedHist wu.hist) (idx : Int)
    (e : histogramData) (he : m idx = some e) :
    ∃ e2, ((collectorUpdateStep cur m wu).1) idx = some e2 ∧ entryLE e e2 ∧
      e2.DTMStatusBits = e.DTMStatusBits := by
  rw [collectorUpdateStep]
  by_cases hstale : wu.dawgModTime ≠ cur
  · rw [if_pos hstale]
    exact ⟨e, he, entryLE_refl e, rfl⟩
  · rw [if_neg hstale]
    by_cases hidx : idx = wu.dawgIndex
    · subst hidx
      refine ⟨addSketch (addCounters e wu) wu, ?_, ?_, ?_⟩
      · simp [he]
      · exact entryLE_trans (entryLE_addCounters e wu hwf)
          (entryLE_addSketch (addCounters e wu) wu)
      · rw [addSketch_statusBits, addCounters_statusBits]
    · refine ⟨e, ?_, entryLE_refl e, rfl⟩
      simp only []
      rw [if_neg hidx]
      exact he

/-- Processing a list of well-formed updates grows an existing entry
monotonically and never rewrites its status bits. -/
theorem processUpdates_mono (cur : Int) (us : List wkdUpdate) :
    ∀ (m : Int → Option histogramData),
      (∀ u ∈ us, wellFormedHist u.hist) →
      ∀ idx e, m idx = some e →
      ∃ e2, processUpdates cur us m idx = some e2 ∧ entryLE e e2 ∧
        e2.DTMStatusBits = e.DTMStatusBits := by
  induction us with
  | nil =>
    intro m _ idx e he
    exact ⟨e, he, entryLE_refl e, rfl⟩
  | cons u rest ih =>
    intro m hwf idx e he
    obtain ⟨e1, he1, hle1, hst1⟩ :=
      collectorUpdateStep_mono cur m u (hwf u (by simp)) idx e he
    obtain ⟨e2, he2, hle2, hst2⟩ :=
      ih ((collectorUpdateStep cur m u).1)
        (fun v hv => hwf v (by simp [hv])) idx e1 he1
    exact ⟨e2, he2, entryLE_trans hle1 hle2, hst2.trans hst1⟩

theorem processUpdates_append (cur : Int) (us1 us2 : List wkdUpdate)
    (m : Int → Option histogramData) :
    processUpdates cur (us1 ++ us2) m =
      processUpdates cur us2 (processUpdates cur us1 m) := by
  induction us1 generalizing m with
  | nil => rfl
  | cons u rest ih =>
    rw [List.cons_append, processUpdates, processUpdates, ih]

theorem bumpRcode_wellFormed (h : histogramData) (rcode : Nat)
    (hwf : wellFormedHist h) : wellFormedHist (bumpRcode h rcode) := by
  obtain ⟨w1, w2, w3, w4, w5, w6, w7, w8, w9, w10⟩ := hwf
  rw [bumpRcode]
  split_ifs <;> refine ⟨?_, ?_, ?_, ?_, ?_, ?_, ?_, ?_, ?_, ?_⟩ <;>
    simp <;> omega

theorem bumpQuestion_wellFormed (h : histogramData) (qclass qtype : Nat)
    (hwf : wellFormedHist h) : wellFormedHist (bumpQuestion h qclass qtype) := by
  obtain ⟨w1, w2, w3, w4, w5, w6, w7, w8, w9, w10⟩ := hwf
  rw [bumpQuestion]
  split_ifs <;> refine ⟨?_, ?_, ?_, ?_, ?_, ?_, ?_, ?_, ?_, ?_⟩ <;>
    simp <;> omega

/-- Every update built by `sendUpdate` carries non-negative counter
increments. -/
theorem sendUpdate_wellFormed (murmurSum64 : List Nat → Nat)
    (ipBytes : List Nat) (msg : DNSMsg) (dawgIdx : Int) (suffixMatch : Bool)
    (dawgModTime : Int) :
    wellFormedHist (sendUpdate murmurSum64 ipBytes msg dawgIdx suffixMatch
      dawgModTime).hist := by
  rw [sendUpdate]
  have hzero : wellFormedHist ({} : histogramData) := by
    refine ⟨?_, ?_, ?_, ?_, ?_, ?_, ?_, ?_, ?_, ?_⟩ <;> simp
  match hip : addrFromSlice ipBytes with
  | some ip =>
    simp only [hip]
    exact bumpQuestion_wellFormed _ _ _ (bumpRcode_wellFormed _ _ hzero)
  | none =>
    simp only [hip]
    exact bumpQuestion_wellFormed _ _ _ (bumpRcode_wellFormed _ _ hzero)

/-- C5: between two rotations, processing any further well-formed
updates only grows every counter and the cardinality of both sketches
of an existing histogram entry, and never changes its status bitset;
the status bitset is written exactly once, at entry creation, from the
exact/wildcard flag; and every update `sendUpdate` produces is
well-formed. -/
theorem C5_collector_monotone_and_status_once
    (cur : Int) (us1 us2 : List wkdUpdate)
    (hwf : ∀ u ∈ us1 ++ us2, wellFormedHist u.hist) (idx : Int)
    (e : histogramData)
    (he : processUpdates cur us1 emptyHistogramMap idx = some e) :
    (∃ e2, processUpdates cur (us1 ++ us2) emptyHistogramMap idx = some e2 ∧
      entryLE e e2 ∧
      hllCardinality e.v4ClientHLL ≤ hllCardinality e2.v4ClientHLL ∧
      hllCardinality e.v6ClientHLL ≤ hllCardinality e2.v6ClientHLL ∧
      e2.DTMStatusBits = e.DTMStatusBits) ∧
    (∀ (m : Int → Option histogramData) (wu : wkdUpdate),
      m wu.dawgIndex = none → wu.dawgModTime = cur →
      ((collectorUpdateStep cur m wu).1) wu.dawgIndex =
        some (addSketch (addCounters (newEntryFor wu) wu) wu) ∧
      (addSketch (addCounters (newEntryFor wu) wu) wu).DTMStatusBits =
        (if wu.suffixMatch then edmStatusWellKnownWildcard
          else edmStatusWellKnownExact)) ∧
    (∀ (murmurSum64 : List Nat → Nat) (ipBytes : List Nat) (msg : DNSMsg)
      (di : Int) (sm : Bool) (mt : Int),
      wellFormedHist (sendUpdate murmurSum64 ipBytes msg di sm mt).hist) := by
  refine ⟨?_, ?_, ?_⟩
  · rw [processUpdates_append]
    obtain ⟨e2, h1, h2, h3⟩ := processUpdates_mono cur us2 _
      (fun u hu => hwf u (by simp [hu])) idx e he
    obtain ⟨c1, c2, c3, c4, c5, c6, c7, c8, c9, c10, c11, c12⟩ := h2
    exact ⟨e2, h1, ⟨c1, c2, c3, c4, c5, c6, c7, c8, c9, c10, c11, c12⟩,
      hllCardinality_mono c11, hllCardinality_mono c12, h3⟩
  · intro m wu hnone hfresh
    constructor
    · rw [collectorUpdateStep, if_neg (by simp [hfresh])]
      simp [hnone]
    · rw [addSketch_statusBits, addCounters_statusBits]
      rfl
  · intro murmurSum64 ipBytes msg di sm mt
    exact sendUpdate_wellFormed murmurSum64 ipBytes msg di sm mt

/-- A concrete well-known update: IPv4 client `10.0.0.1` with hash 42,
an A query answered NOERROR, suffix match at index 7, revision time 0. -/
def c5Update : wkdUpdate :=
  sendUpdate (fun _ => 42) [10, 0, 0, 1]
    { qname := [], rcode := 0, qclass := 1, qtype := 1 } 7 true 0

/-- The entry after one `c5Update`. -/
def c5Entry : histogramData :=
  { ACount := 1, OKCount := 1, DTMStatusBits := 2, v4ClientHLL := [42] }

theorem C5_collector_monotone_and_status_once_witness :
    (∀ u ∈ [c5Update] ++ [c5Update], wellFormedHist u.hist) ∧
    processUpdates 0 [c5Update] emptyHistogramMap 7 = some c5Entry ∧
    (∃ e2, processUpdates 0 ([c5Update] ++ [c5Update]) emptyHistogramMap 7 =
        some e2 ∧
      entryLE c5Entry e2 ∧
      hllCardinality c5Entry.v4ClientHLL ≤ hllCardinality e2.v4ClientHLL ∧
      hllCardinality c5Entry.v6ClientHLL ≤ hllCardinality e2.v6ClientHLL ∧
      e2.DTMStatusBits = c5Entry.DTMStatusBits) := by
  have hwf : ∀ u ∈ [c5Update] ++ [c5Update], wellFormedHist u.hist := by
    intro u hu
    have hu2 : u = c5Update := by
      rcases List.mem_append.mp hu with h | h <;> simpa using h
    subst hu2
    refine ⟨?_, ?_, ?_, ?_, ?_, ?_, ?_, ?_, ?_, ?_⟩ <;> decide
  have hhe : processUpdates 0 [c5Update] emptyHistogramMap 7 = some c5Entry := by
    decide
  exact ⟨hwf, hhe,
    (C5_collector_monotone_and_status_once 0 [c5Update] [c5Update] hwf 7
      c5Entry hhe).1⟩

/-! ## Stale-revision retry

From the loop body of `updateRetryer`.  Each trip through the retryer
re-looks the name up under the tracker state current at that moment;
`lookupFn` is that `wkd.lookup` state (index, suffix flag, revision
time).  `retryMany` iterates the worst case in which every re-emitted
update is found stale again and returns to the retryer. -/

/-- One trip through `updateRetryer`: increment the retry counter, drop
at the limit, drop when the name is gone, otherwise re-emit with the
refreshed index, suffix flag and revision time.  The Go `wu.retry++` is
inlined as `wu.retry + 1` at each use. -/
def retryStep (lookupFn : List Char → Int × Bool × Int) (wu : wkdUpdate) :
    Option wkdUpdate :=
  if wu.retry + 1 ≥ wu.retryLimit then none
  else if (lookupFn wu.msg.qname).1 = dawgNotFound then none
  else
    some { wu with
      retry := wu.retry + 1
      dawgIndex := (lookupFn wu.msg.qname).1
      suffixMatch := (lookupFn wu.msg.qname).2.1
      dawgModTime := (lookupFn wu.msg.qname).2.2 }

/-- Iterated retry trips under a sequence of tracker states. -/
def retryMany (fs : List (List Char → Int × Bool × Int)) (wu : wkdUpdate) :
    Option wkdUpdate :=
  match fs with
  | [] => some wu
  | f :: rest =>
    match retryStep f wu with
    | none => none
    | some wu2 => retryMany rest wu2

theorem retryStep_drop_at_limit (f : List Char → Int × Bool × Int)
    (wu : wkdUpdate) (h : wu.retryLimit ≤ wu.retry + 1) :
    retryStep f wu = none := by
  rw [retryStep, if_pos (by omega : wu.retry + 1 ≥ wu.retryLimit)]

theorem retryStep_some_fields (f : List Char → Int × Bool × Int)
    (wu wu2 : wkdUpdate) (h : retryStep f wu = some wu2) :
    wu2.retry = wu.retry + 1 ∧ wu2.retryLimit = wu.retryLimit ∧
    wu2.hist = wu.hist ∧ wu2.msg = wu.msg ∧
    wu2.dawgIndex = (f wu.msg.qname).1 ∧
    wu2.suffixMatch = (f wu.msg.qname).2.1 ∧
    wu2.dawgModTime = (f wu.msg.qname).2.2 := by
  rw [retryStep] at h
  split_ifs at h
  obtain rfl := Option.some.inj h
  exact ⟨rfl, rfl, rfl, rfl, rfl, rfl, rfl⟩

theorem retryMany_drop : ∀ (fs : List (List Char → Int × Bool × Int))
    (wu : wkdUpdate), fs ≠ [] → wu.retryLimit ≤ wu.retry + fs.length →
    retryMany fs wu = none := by
  intro fs
  induction fs with
  | nil => intro wu h _; exact absurd rfl h
  | cons f rest ih =>
    intro wu _ hlen
    rw [retryMany]
    cases hr : retryStep f wu with
    | none => rfl
    | some wu2 =>
      obtain ⟨h1, h2, _, _, _, _, _⟩ := retryStep_some_fields f wu wu2 hr
      have hnotlimit : ¬ wu.retryLimit ≤ wu.retry + 1 := by
        intro hcon
        rw [retryStep_drop_at_limit f wu hcon] at hr
        exact Option.noConfusion hr
      have hrest : rest ≠ [] := by
        intro hremp
        subst hremp
        simp at hlen
        omega
      exact ih wu2 hrest (by simp at hlen; omega)

/-- C7: a stale-revision update is routed to the retryer with the map
untouched; a retryer trip drops the update when the incremented counter
reaches the limit, drops it when the name is gone from the current
dictionary, and otherwise re-emits it with refreshed index, suffix flag
and revision time (counters intact); `sendUpdate` starts every update at
retry 0 with limit 10, so at most 10 trips ever happen: after 10 the
update is dropped. -/
theorem C7_updateRetryer_bounded_and_refresh
    (cur : Int) (f : List Char → Int × Bool × Int) (wu : wkdUpdate) :
    (∀ m : Int → Option histogramData, wu.dawgModTime ≠ cur →
      collectorUpdateStep cur m wu = (m, some wu)) ∧
    (wu.retryLimit ≤ wu.retry + 1 → retryStep f wu = none) ∧
    (wu.retry + 1 < wu.retryLimit → (f wu.msg.qname).1 = dawgNotFound →
      retryStep f wu = none) ∧
    (wu.retry + 1 < wu.retryLimit → (f wu.msg.qname).1 ≠ dawgNotFound →
      ∃ wu2, retryStep f wu = some wu2 ∧ wu2.retry = wu.retry + 1 ∧
        wu2.retryLimit = wu.retryLimit ∧ wu2.hist = wu.hist ∧
        wu2.msg = wu.msg ∧ wu2.dawgIndex = (f wu.msg.qname).1 ∧
        wu2.suffixMatch = (f wu.msg.qname).2.1 ∧
        wu2.dawgModTime = (f wu.msg.qname).2.2) ∧
    (∀ (murmurSum64 : List Nat → Nat) (ipBytes : List Nat) (msg : DNSMsg)
      (di : Int) (sm : Bool) (mt : Int),
      (sendUpdate murmurSum64 ipBytes msg di sm mt).retry = 0 ∧
      (sendUpdate murmurSum64 ipBytes msg di sm mt).retryLimit = 10) ∧
    (∀ fs : List (List Char → Int × Bool × Int), wu.retry = 0 →
      wu.retryLimit = 10 → 10 ≤ fs.length → retryMany fs wu = none) := by
  refine ⟨?_, ?_, ?_, ?_, ?_, ?_⟩
  · intro m hstale
    rw [collectorUpdateStep, if_pos hstale]
  · exact retryStep_drop_at_limit f wu
  · intro hlt hmiss
    rw [retryStep, if_neg (by omega : ¬ wu.retry + 1 ≥ wu.retryLimit),
      if_pos hmiss]
  · intro hlt hhit
    refine ⟨{ wu with
        retry := wu.retry + 1
        dawgIndex := (f wu.msg.qname).1
        suffixMatch := (f wu.msg.qname).2.1
        dawgModTime := (f wu.msg.qname).2.2 },
      ?_, rfl, rfl, rfl, rfl, rfl, rfl, rfl⟩
    rw [retryStep, if_neg (by omega : ¬ wu.retry + 1 ≥ wu.retryLimit),
      if_neg hhit]
  · intro murmurSum64 ipBytes msg di sm mt
    rcases hip : addrFromSlice ipBytes with _ | ip <;>
      simp [sendUpdate, hip]
  · intro fs h0 h10 hlen
    apply retryMany_drop fs wu
    · intro hemp
      subst hemp
      simp at hlen
    · omega

/-- The DNS message of the C7 witness update. -/
def c7Msg : DNSMsg := { qname := [], rcode := 0, qclass := 1, qtype := 1 }

/-- The C7 witness update: fresh out of `sendUpdate`. -/
def c7Update : wkdUpdate := sendUpdate (fun _ => 0) [] c7Msg 7 false 0

theorem C7_updateRetryer_bounded_and_refresh_witness :
    c7Update.retry = 0 ∧ c7Update.retryLimit = 10 ∧
    retryMany (List.replicate 10 (fun _ => (5, true, 1))) c7Update = none := by
  refine ⟨rfl, rfl, ?_⟩
  exact (C7_updateRetryer_bounded_and_refresh 0 (fun _ => (5, true, 1))
    c7Update).2.2.2.2.2 (List.replicate 10 (fun _ => (5, true, 1))) rfl rfl
    (by simp)

/-! ## Parquet filenames and their timestamps

From `buildParquetFilenames`, `timestampToFileString` and
`timestampsFromFilename`.  Strings are `List Char`.  Go's `time.Time`
is modelled as a UTC civil datetime (`UTCTime`); `time.Format
(time.RFC3339)` for a whole-second UTC value with a four-digit year is
`rfc3339UTC`, and `time.Parse` with the layout
`2006-01-02T15-04-05Z07:00` is modelled for its `Z` (UTC) branch,
including Go's field range checks. -/

/-- A whole-second UTC wall-clock time. -/
structure UTCTime where
  year : Nat
  month : Nat
  day : Nat
  hour : Nat
  minute : Nat
  second : Nat
  deriving DecidableEq, Repr

/-- Gregorian leap year rule (as in Go's `time` package). -/
def isLeapYear (y : Nat) : Bool :=
  y % 4 = 0 && (y % 100 ≠ 0 || y % 400 = 0)

/-- Days in a month (as checked by Go's `time.Parse`). -/
def daysIn (month year : Nat) : Nat :=
  if month = 2 then (if isLeapYear year then 29 else 28)
  else if month = 4 ∨ month = 6 ∨ month = 9 ∨ month = 11 then 30
  else 31

/-- Field validity of a civil datetime with a four-digit year (what
`time.Now().UTC()` truncated to seconds always satisfies until the year
10000). -/
def validUTCTime (t : UTCTime) : Prop :=
  t.year ≤ 9999 ∧ 1 ≤ t.month ∧ t.month ≤ 12 ∧ 1 ≤ t.day ∧
  t.day ≤ daysIn t.month t.year ∧ t.hour ≤ 23 ∧ t.minute ≤ 59 ∧ t.second ≤ 59

/-- Decimal digit character. -/
def digitChar (n : Nat) : Char :=
  match n with
  | 0 => '0'
  | 1 => '1'
  | 2 => '2'
  | 3 => '3'
  | 4 => '4'
  | 5 => '5'
  | 6 => '6'
  | 7 => '7'
  | 8 => '8'
  | 9 => '9'
  | _ => '*'

/-- Two-digit zero-padded decimal. -/
def pad2 (n : Nat) : List Char := [digitChar (n / 10), digitChar (n % 10)]

/-- Four-digit zero-padded decimal. -/
def pad4 (n : Nat) : List Char :=
  [digitChar (n / 1000), digitChar (n / 100 % 10), digitChar (n / 10 % 10),
   digitChar (n % 10)]

/-- `time.Format(time.RFC3339)` of a whole-second UTC time:
`YYYY-MM-DDThh:mm:ssZ`. -/
def rfc3339UTC (t : UTCTime) : List Char :=
  pad4 t.year ++ '-' :: pad2 t.month ++ '-' :: pad2 t.day ++
    'T' :: pad2 t.hour ++ ':' :: pad2 t.minute ++ ':' :: pad2 t.second ++ ['Z']

/-- `strings.ReplaceAll(s, ":", "-")` (single-character pattern). -/
def replaceColonDash (s : List Char) : List Char :=
  s.map (fun c => if c = ':' then '-' else c)

/-- From `timestampToFileString`. -/
def timestampToFileString (t : UTCTime) : List Char :=
  replaceColonDash (rfc3339UTC t)

/-- The `fmt.Sprintf("%s-%s_%s.parquet", ...)` of
`buildParquetFilenames`. -/
def parquetFileName (baseName : List Char) (timeStart timeStop : UTCTime) :
    List Char :=
  baseName ++ '-' :: timestampToFileString timeStart ++
    '_' :: timestampToFileString timeStop ++ ".parquet".toList

/-- From `buildParquetFilenames`: `(tmp name, final name)`;
`filepath.Join` on a clean base directory is slash concatenation. -/
def buildParquetFilenames (baseDir baseName : List Char)
    (timeStart timeStop : UTCTime) : List Char × List Char :=
  (baseDir ++ '/' :: (parquetFileName baseName timeStart timeStop ++
    ".tmp".toList),
   baseDir ++ '/' :: parquetFileName baseName timeStart timeStop)

/-- Numeric value of a digit character. -/
def digitVal (c : Char) : Nat := c.toNat - 48

/-- Model of `time.Parse` with layout `2006-01-02T15-04-05Z07:00`,
restricted to its `Z` (UTC) branch: the input must be exactly
`YYYY-MM-DDThh-mm-ssZ` with in-range fields. -/
def parseDashedRFC3339 (s : List Char) : Option UTCTime :=
  match s with
  | [y1, y2, y3, y4, c1, mo1, mo2, c2, d1, d2, c3, h1, h2, c4, mi1, mi2,
     c5, s1, s2, c6] =>
    let year := ((digitVal y1 * 10 + digitVal y2) * 10 + digitVal y3) * 10 +
      digitVal y4
    let month := digitVal mo1 * 10 + digitVal mo2
    let day := digitVal d1 * 10 + digitVal d2
    let hour := digitVal h1 * 10 + digitVal h2
    let minute := digitVal mi1 * 10 + digitVal mi2
    let second := digitVal s1 * 10 + digitVal s2
    if y1.isDigit ∧ y2.isDigit ∧ y3.isDigit ∧ y4.isDigit ∧
        mo1.isDigit ∧ mo2.isDigit ∧ d1.isDigit ∧ d2.isDigit ∧
        h1.isDigit ∧ h2.isDigit ∧ mi1.isDigit ∧ mi2.isDigit ∧
        s1.isDigit ∧ s2.isDigit ∧
        c1 = '-' ∧ c2 = '-' ∧ c3 = 'T' ∧ c4 = '-' ∧ c5 = '-' ∧ c6 = 'Z' ∧
        1 ≤ month ∧ month ≤ 12 ∧ 1 ≤ day ∧ day ≤ daysIn month year ∧
        hour ≤ 23 ∧ minute ≤ 59 ∧ second ≤ 59 then
      some { year := year, month := month, day := day, hour := hour,
             minute := minute, second := second }
    else none
  | _ => none

/-- `strings.TrimSuffix`. -/
def trimSuffix (s suffix : List Char) : List Char :=
  if suffix <:+ s then s.take (s.length - suffix.length) else s

/-- Split at the first occurrence of a separator character, if any. -/
def splitFirst (sep : Char) : List Char → Option (List Char × List Char)
  | [] => none
  | c :: rest =>
    if c = sep then some ([], rest)
    else
      match splitFirst sep rest with
      | none => none
      | some (a, b) => some (c :: a, b)

/-- `strings.SplitN(s, sep, 2)` for a one-character separator. -/
def splitN2 (s : List Char) (sep : Char) : List (List Char) :=
  match splitFirst sep s with
  | none => [s]
  | some (a, b) => [a, b]

theorem splitFirst_length (sep : Char) :
    ∀ (s a b : List Char), splitFirst sep s = some (a, b) →
      b.length < s.length := by
  intro s
  induction s with
  | nil => intro a b h; exact Option.noConfusion h
  | cons c rest ih =>
    intro a b h
    rw [splitFirst] at h
    by_cases hc : c = sep
    · rw [if_pos hc] at h
      obtain ⟨_, h2⟩ := Prod.mk.inj (Option.some.inj h)
      subst h2
      simp
    · rw [if_neg hc] at h
      cases hs : splitFirst sep rest with
      | none => rw [hs] at h; exact Option.noConfusion h
      | some p =>
        obtain ⟨a2, b2⟩ := p
        rw [hs] at h
        obtain ⟨_, h2⟩ := Prod.mk.inj (Option.some.inj h)
        subst h2
        have := ih a2 b2 hs
        simp
        omega

/-- `strings.Split(s, sep)` for a one-character separator: cut at every
occurrence; an empty input gives one empty group. -/
def splitAll (sep : Char) : List Char → List (List Char)
  | [] => [[]]
  | c :: rest =>
    if c = sep then [] :: splitAll sep rest
    else
      match splitAll sep rest with
      | [] => [[c]]
      | group :: groups => (c :: group) :: groups

/-- From `timestampsFromFilename`.  The outer `Option` is `none` exactly
where Go panics with an out-of-range index (`nameParts[1]` when the
trimmed name has no dash; `times[1]` when the part after the first dash
has no underscore); the inner `Except` is the error return. -/
def timestampsFromFilename (name : List Char) :
    Option (Except Unit (UTCTime × UTCTime)) :=
  let trimmedName := trimSuffix name ".parquet".toList
  let nameParts := splitN2 trimmedName '-'
  match nameParts.get? 1 with
  | none => none
  | some rest =>
    let times := splitAll '_' rest
    match times.get? 0 with
    | none => none
    | some t0 =>
      match parseDashedRFC3339 t0 with
      | none => some (Except.error ())
      | some startTime =>
        match times.get? 1 with
        | none => none
        | some t1 =>
          match parseDashedRFC3339 t1 with
          | none => some (Except.error ())
          | some stopTime => some (Except.ok (startTime, stopTime))

theorem digitChar_ne_colon (n : Nat) : (digitChar n = ':') = False := by
  unfold digitChar
  split <;> decide

theorem digitChar_isDigit (k : Nat) (h : k ≤ 9) : (digitChar k).isDigit = true := by
  interval_cases k <;> decide

theorem digitVal_digitChar (k : Nat) (h : k ≤ 9) : digitVal (digitChar k) = k := by
  interval_cases k <;> decide

theorem underscore_ne_digitChar (n : Nat) : ('_' = digitChar n) = False := by
  unfold digitChar
  split <;> decide

/-- The shell-safe timestamp string spelled out: the two time colons are
replaced by dashes and nothing else changes. -/
theorem timestampToFileString_eq (t : UTCTime) :
    timestampToFileString t =
      pad4 t.year ++ '-' :: pad2 t.month ++ '-' :: pad2 t.day ++
        'T' :: pad2 t.hour ++ '-' :: pad2 t.minute ++ '-' :: pad2 t.second ++
        ['Z'] := by
  simp [timestampToFileString, replaceColonDash, rfc3339UTC, pad4, pad2,
    digitChar_ne_colon]

/-- No underscore ever appears in a shell-safe timestamp string. -/
theorem underscore_not_mem_timestampToFileString (t : UTCTime) :
    ('_' : Char) ∉ timestampToFileString t := by
  rw [timestampToFileString_eq]
  intro hmem
  simp [pad4, pad2, underscore_ne_digitChar] at hmem

/-- Parsing a formatted valid whole-second UTC time recovers it
exactly. -/
theorem parse_format_roundtrip (t : UTCTime) (hv : validUTCTime t) :
    parseDashedRFC3339 (timestampToFileString t) = some t := by
  obtain ⟨y, mo, d, h, mi, s⟩ := t
  obtain ⟨hy0, hmo10, hmo20, hd10, hd20, hh0, hmi0, hs0⟩ := hv
  have hy : y ≤ 9999 := hy0
  have hmo1 : 1 ≤ mo := hmo10
  have hmo2 : mo ≤ 12 := hmo20
  have hd1 : 1 ≤ d := hd10
  have hd2 : d ≤ daysIn mo y := hd20
  have hh : h ≤ 23 := hh0
  have hmi : mi ≤ 59 := hmi0
  have hs : s ≤ 59 := hs0
  have hdays : daysIn mo y ≤ 31 := by
    rw [daysIn]
    split_ifs <;> omega
  have hd31 : d ≤ 31 := le_trans hd2 hdays
  have hYE : ((digitVal (digitChar (y / 1000)) * 10 +
      digitVal (digitChar (y / 100 % 10))) * 10 +
      digitVal (digitChar (y / 10 % 10))) * 10 +
      digitVal (digitChar (y % 10)) = y := by
    rw [digitVal_digitChar _ (by omega), digitVal_digitChar _ (by omega),
      digitVal_digitChar _ (by omega), digitVal_digitChar _ (by omega)]
    omega
  have hMO : digitVal (digitChar (mo / 10)) * 10 +
      digitVal (digitChar (mo % 10)) = mo := by
    rw [digitVal_digitChar _ (by omega), digitVal_digitChar _ (by omega)]
    omega
  have hDA : digitVal (digitChar (d / 10)) * 10 +
      digitVal (digitChar (d % 10)) = d := by
    rw [digitVal_digitChar _ (by omega), digitVal_digitChar _ (by omega)]
    omega
  have hHO : digitVal (digitChar (h / 10)) * 10 +
      digitVal (digitChar (h % 10)) = h := by
    rw [digitVal_digitChar _ (by omega), digitVal_digitChar _ (by omega)]
    omega
  have hMI : digitVal (digitChar (mi / 10)) * 10 +
      digitVal (digitChar (mi % 10)) = mi := by
    rw [digitVal_digitChar _ (by omega), digitVal_digitChar _ (by omega)]
    omega
  have hSE : digitVal (digitChar (s / 10)) * 10 +
      digitVal (digitChar (s % 10)) = s := by
    rw [digitVal_digitChar _ (by omega), digitVal_digitChar _ (by omega)]
    omega
  rw [timestampToFileString_eq]
  simp only [pad4, pad2, List.cons_append, List.nil_append]
  simp only [parseDashedRFC3339]
  split_ifs with hcond
  · rw [hYE, hMO, hDA, hHO, hMI, hSE]
  · exfalso
    apply hcond
    refine ⟨digitChar_isDigit _ (by omega), digitChar_isDigit _ (by omega),
      digitChar_isDigit _ (by omega), digitChar_isDigit _ (by omega),
      digitChar_isDigit _ (by omega), digitChar_isDigit _ (by omega),
      digitChar_isDigit _ (by omega), digitChar_isDigit _ (by omega),
      digitChar_isDigit _ (by omega), digitChar_isDigit _ (by omega),
      digitChar_isDigit _ (by omega), digitChar_isDigit _ (by omega),
      digitChar_isDigit _ (by omega), digitChar_isDigit _ (by omega),
      trivial, trivial, trivial, trivial, trivial, trivial,
      ?_, ?_, ?_, ?_, ?_, ?_, ?_⟩
    · rw [hMO]; omega
    · rw [hMO]; omega
    · rw [hDA]; omega
    · rw [hDA, hMO, hYE]; exact hd2
    · rw [hHO]; omega
    · rw [hMI]; omega
    · rw [hSE]; omega

theorem trimSuffix_append (l suffix : List Char) :
    trimSuffix (l ++ suffix) suffix = l := by
  rw [trimSuffix, if_pos (List.suffix_append l suffix)]
  have hlen : (l ++ suffix).length - suffix.length = l.length := by simp
  rw [hlen, List.take_left]

theorem splitFirst_append (sep : Char) : ∀ (a b : List Char), sep ∉ a →
    splitFirst sep (a ++ sep :: b) = some (a, b) := by
  intro a
  induction a with
  | nil =>
    intro b _
    rw [List.nil_append, splitFirst, if_pos rfl]
  | cons c a2 ih =>
    intro b hna
    have hc : ¬ c = sep := by
      intro hceq
      exact hna (by simp [hceq])
    rw [List.cons_append, splitFirst, if_neg hc,
      ih b (fun hm => hna (by simp [hm]))]

theorem splitAll_not_mem (sep : Char) : ∀ (s : List Char), sep ∉ s →
    splitAll sep s = [s] := by
  intro s
  induction s with
  | nil => intro _; rfl
  | cons c rest ih =>
    intro hs
    have hc : ¬ c = sep := by
      intro hceq
      exact hs (by simp [hceq])
    rw [splitAll, if_neg hc, ih (fun hm => hs (by simp [hm]))]

theorem splitAll_two (sep : Char) (a b : List Char) (ha : sep ∉ a)
    (hb : sep ∉ b) : splitAll sep (a ++ sep :: b) = [a, b] := by
  have hstep : ∀ (a2 : List Char), sep ∉ a2 →
      splitAll sep (a2 ++ sep :: b) = a2 :: splitAll sep b := by
    intro a2
    induction a2 with
    | nil =>
      intro _
      rw [List.nil_append, splitAll, if_pos rfl]
    | cons c a3 ih =>
      intro hna
      have hc : ¬ c = sep := by
        intro hceq
        exact hna (by simp [hceq])
      rw [List.cons_append, splitAll, if_neg hc,
        ih (fun hm => hna (by simp [hm]))]
  rw [hstep a ha, splitAll_not_mem sep b hb]

/-- Parsing the produced histogram filename recovers both timestamps. -/
theorem timestampsFromFilename_roundtrip (t1 t2 : UTCTime)
    (h1 : validUTCTime t1) (h2 : validUTCTime t2) :
    timestampsFromFilename (parquetFileName "dns_histogram".toList t1 t2) =
      some (Except.ok (t1, t2)) := by
  have hregroup : parquetFileName "dns_histogram".toList t1 t2 =
      ("dns_histogram".toList ++ '-' :: (timestampToFileString t1 ++
        '_' :: timestampToFileString t2)) ++ ".parquet".toList := by
    simp [parquetFileName, List.append_assoc]
  have htrim : trimSuffix (parquetFileName "dns_histogram".toList t1 t2)
      ".parquet".toList = "dns_histogram".toList ++
      '-' :: (timestampToFileString t1 ++ '_' :: timestampToFileString t2) := by
    rw [hregroup, trimSuffix_append]
  have hdash : splitFirst '-' ("dns_histogram".toList ++
      '-' :: (timestampToFileString t1 ++ '_' :: timestampToFileString t2)) =
      some ("dns_histogram".toList,
        timestampToFileString t1 ++ '_' :: timestampToFileString t2) :=
    splitFirst_append '-' _ _ (by decide)
  have hsplit2 : splitAll '_' (timestampToFileString t1 ++
      '_' :: timestampToFileString t2) =
      [timestampToFileString t1, timestampToFileString t2] :=
    splitAll_two '_' _ _ (underscore_not_mem_timestampToFileString t1)
      (underscore_not_mem_timestampToFileString t2)
  simp only [timestampsFromFilename, htrim, splitN2, hdash,
    List.get?_cons_succ, List.get?_cons_zero, hsplit2,
    parse_format_roundtrip t1 h1, parse_format_roundtrip t2 h2]

/-- C9: for whole-second valid UTC start/stop times, parsing the final
output filename built by `buildParquetFilenames` (base name, dashed
shell-safe timestamps joined by an underscore, `.parquet` suffix)
returns exactly the original times, so any interval derived from the
parsed pair equals the one derived from the originals. -/
theorem C9_filename_timestamp_roundtrip (timeStart timeStop : UTCTime)
    (hs : validUTCTime timeStart) (ht : validUTCTime timeStop)
    (baseDir : List Char) :
    timestampsFromFilename
        (parquetFileName "dns_histogram".toList timeStart timeStop) =
      some (Except.ok (timeStart, timeStop)) ∧
    (buildParquetFilenames baseDir "dns_histogram".toList timeStart
        timeStop).2 =
      baseDir ++ '/' ::
        parquetFileName "dns_histogram".toList timeStart timeStop ∧
    (∀ (sub : UTCTime → UTCTime → Int) (s2 t2 : UTCTime),
      timestampsFromFilename
          (parquetFileName "dns_histogram".toList timeStart timeStop) =
        some (Except.ok (s2, t2)) → sub t2 s2 = sub timeStop timeStart) := by
  have hrt := timestampsFromFilename_roundtrip timeStart timeStop hs ht
  refine ⟨hrt, rfl, ?_⟩
  intro sub s2 t2 h
  rw [hrt] at h
  obtain ⟨hh1, hh2⟩ := Prod.mk.inj (Except.ok.inj (Option.some.inj h))
  rw [hh1, hh2]

/-- 2023-11-29T13:50:00Z. -/
def c9Start : UTCTime := ⟨2023, 11, 29, 13, 50, 0⟩

/-- 2023-11-29T13:51:00Z. -/
def c9Stop : UTCTime := ⟨2023, 11, 29, 13, 51, 0⟩

theorem C9_filename_timestamp_roundtrip_witness :
    validUTCTime c9Start ∧ validUTCTime c9Stop ∧
    timestampsFromFilename
        (parquetFileName "dns_histogram".toList c9Start c9Stop) =
      some (Except.ok (c9Start, c9Stop)) := by
  have hs : validUTCTime c9Start := by
    refine ⟨?_, ?_, ?_, ?_, ?_, ?_, ?_, ?_⟩ <;> decide
  have ht : validUTCTime c9Stop := by
    refine ⟨?_, ?_, ?_, ?_, ?_, ?_, ?_, ?_⟩ <;> decide
  exact ⟨hs, ht,
    (C9_filename_timestamp_roundtrip c9Start c9Stop hs ht []).1⟩

/-! ## The histogram sender sweep and the signed POST

From `histogramSender` (per-file handling inside the sweep) and
`aggregateSender.send`.  The HTTP exchange itself is external; its
observable outcome is the `HTTPResult` passed in. -/

/-- Outcome of the signed POST as `send` observes it. -/
inductive HTTPResult where
  /-- `signingHTTPClient.Do` returned an error. -/
  | transportError
  /-- A response arrived: its status code, whether reading and closing
  the body succeeded, and whether `url.Parse` accepts the `Location`
  header value. -/
  | response (statusCode : Nat) (bodyReadOk : Bool) (bodyCloseOk : Bool)
      (locationParseOk : Bool)
  deriving DecidableEq, Repr

/-- The error returns of `send`, in source order. -/
inductive SendErr where
  | transport
  | bodyRead
  | bodyClose
  | status (code : Nat)
  | location
  deriving DecidableEq, Repr

/-- From `aggregateSender.send`: the function returns nil exactly when
the POST went out, the body was read and closed, the status was 201
(`http.StatusCreated`) and the `Location` header parsed. -/
def sendResult : HTTPResult → Except SendErr Unit
  | HTTPResult.transportError => Except.error SendErr.transport
  | HTTPResult.response status readOk closeOk locOk =>
    if !readOk then Except.error SendErr.bodyRead
    else if !closeOk then Except.error SendErr.bodyClose
    else if status ≠ 201 then Except.error (SendErr.status status)
    else if !locOk then Except.error SendErr.location
    else Except.ok ()

/-- The sweep filter of `histogramSender`: histogram parquet files. -/
def isHistogramFileName (name : List Char) : Bool :=
  "dns_histogram-".toList.isPrefixOf name &&
    ".parquet".toList.isSuffixOf name

/-- What the sweep does with one directory entry. -/
inductive FileAction where
  /-- The name fails the prefix/suffix filter: untouched. -/
  | notMatched
  /-- Timestamp parse error: logged, file left for the next sweep. -/
  | parseErrorSkip
  /-- `timestampsFromFilename` panics: the sweep goroutine crashes. -/
  | panicked
  /-- `send` failed: file left in the outbox for the next sweep. -/
  | keptInOutbox
  /-- `send` succeeded: file renamed into the sent directory. -/
  | movedToSent
  deriving DecidableEq, Repr

/-- The per-file body of the `histogramSender` sweep. -/
def histogramSenderFileStep (name : List Char) (http : HTTPResult) :
    FileAction :=
  if isHistogramFileName name then
    match timestampsFromFilename name with
    | none => FileAction.panicked
    | some (Except.error _) => FileAction.parseErrorSkip
    | some (Except.ok _) =>
      match sendResult http with
      | Except.error _ => FileAction.keptInOutbox
      | Except.ok _ => FileAction.movedToSent
  else FileAction.notMatched

/-- C8 counterexample: the POST returns HTTP 201 but the response's
`Location` header does not parse (e.g. contains an invalid percent
escape), `send` returns an error, and the file stays in the outbox even
though the status was 201 — so "renamed exactly when the POST returned
201" fails. -/
theorem C8_counterexample_201_location_parse_failure :
    histogramSenderFileStep
        "dns_histogram-2023-11-29T13-50-00Z_2023-11-29T13-51-00Z.parquet".toList
        (HTTPResult.response 201 true true false) = FileAction.keptInOutbox ∧
    histogramSenderFileStep
        "dns_histogram-2023-11-29T13-50-00Z_2023-11-29T13-51-00Z.parquet".toList
        (HTTPResult.response 201 true true false) ≠ FileAction.movedToSent := by
  constructor
  · decide
  · decide

/-- C8 amended: a swept histogram file whose timestamps parse is renamed
into the sent directory exactly when `send` succeeded, i.e. when the
POST returned HTTP 201 and the body was read and closed and the
`Location` header parsed; on a transport error or any non-201 status
(and on any other `send` failure) the file is left in the outbox for the
next sweep. -/
theorem C8_sender_rename_iff_send_success (name : List Char)
    (http : HTTPResult) (hmatch : isHistogramFileName name = true)
    (hparse : ∃ ts, timestampsFromFilename name = some (Except.ok ts)) :
    (histogramSenderFileStep name http = FileAction.movedToSent ↔
      sendResult http = Except.ok ()) ∧
    (∀ status readOk closeOk locOk,
      http = HTTPResult.response status readOk closeOk locOk →
      (sendResult http = Except.ok () ↔
        status = 201 ∧ readOk = true ∧ closeOk = true ∧ locOk = true)) ∧
    (http = HTTPResult.transportError →
      histogramSenderFileStep name http = FileAction.keptInOutbox) ∧
    (∀ status readOk closeOk locOk,
      http = HTTPResult.response status readOk closeOk locOk →
      status ≠ 201 →
      histogramSenderFileStep name http = FileAction.keptInOutbox) := by
  obtain ⟨ts, hts⟩ := hparse
  have hstep : histogramSenderFileStep name http =
      (match sendResult http with
        | Except.error _ => FileAction.keptInOutbox
        | Except.ok _ => FileAction.movedToSent) := by
    rw [histogramSenderFileStep, if_pos hmatch, hts]
  refine ⟨?_, ?_, ?_, ?_⟩
  · rw [hstep]
    cases hsr : sendResult http with
    | error e => simp
    | ok u => simp
  · intro status readOk closeOk locOk heq
    subst heq
    cases readOk <;> cases closeOk <;> cases locOk <;>
      by_cases hst : status = 201 <;> simp [sendResult, hst]
  · intro heq
    subst heq
    rw [hstep]
    rfl
  · intro status readOk closeOk locOk heq hneq
    subst heq
    rw [hstep]
    cases readOk <;> cases closeOk <;> cases locOk <;>
      simp [sendResult, hneq]

deriving instance DecidableEq for Except

theorem C8_sender_rename_iff_send_success_witness :
    isHistogramFileName
        "dns_histogram-2023-11-29T13-50-00Z_2023-11-29T13-51-00Z.parquet".toList
      = true ∧
    (∃ ts, timestampsFromFilename
        "dns_histogram-2023-11-29T13-50-00Z_2023-11-29T13-51-00Z.parquet".toList
      = some (Except.ok ts)) ∧
    histogramSenderFileStep
        "dns_histogram-2023-11-29T13-50-00Z_2023-11-29T13-51-00Z.parquet".toList
        (HTTPResult.response 201 true true true) = FileAction.movedToSent := by
  have hm : isHistogramFileName
      "dns_histogram-2023-11-29T13-50-00Z_2023-11-29T13-51-00Z.parquet".toList
      = true := by decide
  have hp : ∃ ts, timestampsFromFilename
      "dns_histogram-2023-11-29T13-50-00Z_2023-11-29T13-51-00Z.parquet".toList
      = some (Except.ok ts) := ⟨(c9Start, c9Stop), by decide⟩
  exact ⟨hm, hp,
    ((C8_sender_rename_iff_send_success
      "dns_histogram-2023-11-29T13-50-00Z_2023-11-29T13-51-00Z.parquet".toList
      (HTTPResult.response 201 true true true) hm hp).1).mpr (by decide)⟩

/-- C10 counterexample: on the claim's own example input
`dns_histogram-x.parquet` the function does not panic: `x` fails
timestamp parsing, an error is returned, and the sweep logs and skips
the file. -/
theorem C10_counterexample_example_input_no_panic :
    isHistogramFileName "dns_histogram-x.parquet".toList = true ∧
    timestampsFromFilename "dns_histogram-x.parquet".toList =
      some (Except.error ()) ∧
    histogramSenderFileStep "dns_histogram-x.parquet".toList
      HTTPResult.transportError = FileAction.parseErrorSkip := by
  refine ⟨by decide, by decide, by decide⟩

/-- C10 amended: `timestampsFromFilename` is indeed partial, but the
panicking inputs are those whose first timestamp parses and whose
post-dash part has no underscore: on
`dns_histogram-2023-11-29T13-50-00Z.parquet` (accepted by the sweep
filter, no underscore after the first dash) the `times[1]` access is out
of range and the sweep goroutine crashes. -/
theorem C10_panic_on_parseable_timestamp_without_underscore :
    isHistogramFileName
      "dns_histogram-2023-11-29T13-50-00Z.parquet".toList = true ∧
    splitFirst '-' "dns_histogram-2023-11-29T13-50-00Z.parquet".toList =
      some ("dns_histogram".toList, "2023-11-29T13-50-00Z.parquet".toList) ∧
    ('_' : Char) ∉ "2023-11-29T13-50-00Z.parquet".toList ∧
    timestampsFromFilename
      "dns_histogram-2023-11-29T13-50-00Z.parquet".toList = none ∧
    histogramSenderFileStep
      "dns_histogram-2023-11-29T13-50-00Z.parquet".toList
      HTTPResult.transportError = FileAction.panicked := by
  refine ⟨by decide, by decide, by decide, by decide, by decide⟩
